import Mathlib

/-!
Shallow embedding of the signal-generation and backtesting engine of
`backend/app/services/ai_service.py` (class `AITradingService`).

Numeric values are modelled as exact rationals.  A pandas/numpy "NaN" cell is
modelled as `none : Option ℚ`; a quotient with zero denominator is undefined
(the concrete inputs exercised below only reach this case as 0/0, which
pandas also turns into NaN).  The sklearn classifier, the seeded
train/test-split permutation and the square root used by `StandardScaler`
and the Bollinger standard deviation are third-party code and appear as
parameters; every theorem quantifies over them.
-/

set_option maxRecDepth 10000

namespace AITrading

/-- Division producing a missing value when the denominator is zero. -/
def oDiv (x y : ℚ) : Option ℚ := if y = 0 then none else some (x / y)

/-- Pointwise combination of two optional columns; missing inputs propagate,
as NaN does through pandas arithmetic. -/
def omap2 (f : ℚ → ℚ → ℚ) (a b : Nat → Option ℚ) : Nat → Option ℚ :=
  fun i =>
    match a i, b i with
    | some x, some y => some (f x y)
    | _, _ => none

/-- Sequence a list of optional values: defined only when every entry is. -/
def seqOpt : List (Option ℚ) → Option (List ℚ)
  | [] => some []
  | none :: _ => none
  | some x :: rest => (seqOpt rest).map (x :: ·)

/-- One OHLC bar, as a row of the DataFrame built from the market-data
provider (the embedding models inputs without a volume column, so the
`tick_volume` branch of `calculate_technical_indicators` is not taken). -/
structure Bar where
  open_ : ℚ
  high : ℚ
  low : ℚ
  close : ℚ
deriving DecidableEq


/-- The close column of the raw frame; every cell of the fetched frame is
present, missingness only arises from indicator warm-up windows. -/
def closeCol (bars : List Bar) : List (Option ℚ) := bars.map (fun b => some b.close)

def openCol (bars : List Bar) : List (Option ℚ) := bars.map (fun b => some b.open_)

def highCol (bars : List Bar) : List (Option ℚ) := bars.map (fun b => some b.high)

def lowCol (bars : List Bar) : List (Option ℚ) := bars.map (fun b => some b.low)

/-- Pointwise combination of two columns; missing inputs propagate, as NaN
does through pandas arithmetic.  Lengths truncate to the shorter column. -/
def zipO (f : ℚ → ℚ → ℚ) (a b : List (Option ℚ)) : List (Option ℚ) :=
  List.zipWith (fun x y =>
    match x, y with
    | some u, some v => some (f u v)
    | _, _ => none) a b

/-- Pointwise combination whose result may itself be undefined (divisions). -/
def zipOb (f : ℚ → ℚ → Option ℚ) (a b : List (Option ℚ)) : List (Option ℚ) :=
  List.zipWith (fun x y =>
    match x, y with
    | some u, some v => f u v
    | _, _ => none) a b

/-- Pairing of two columns, defined where both are. -/
def zipPair (a b : List (Option ℚ)) : List (Option (ℚ × ℚ)) :=
  List.zipWith (fun x y =>
    match x, y with
    | some u, some v => some (u, v)
    | _, _ => none) a b

/-- Three-column combination with possibly undefined result. -/
def zip3Ob (f : ℚ → ℚ → ℚ → Option ℚ) (a b c : List (Option ℚ)) : List (Option ℚ) :=
  List.zipWith (fun xy z =>
    match xy, z with
    | some (u, v), some w => f u v w
    | _, _ => none) (zipPair a b) c

/-- Pandas shift(k): the first `k` cells become missing and the column keeps
its length (any overhang beyond the frame is truncated by the later zips). -/
def shiftF (k : Nat) (src : List (Option ℚ)) : List (Option ℚ) :=
  List.replicate k none ++ src.take (src.length - k)

/-- Windows of length `w` starting at each position: the window starting at
a position is defined when `w` cells remain and none of them is missing. -/
def startWins (w : Nat) : List (Option ℚ) → List (Option (List ℚ))
  | [] => []
  | x :: rest =>
    (if w ≤ (x :: rest).length then seqOpt ((x :: rest).take w) else none) :: startWins w rest

/-- Rolling aggregation with window `w` and min_periods `w` (pandas
rolling): cell `i` applies `f` to the window ending at `i`, and the first
`w - 1` cells are missing. -/
def rollingCol (w : Nat) (f : List ℚ → ℚ) (src : List (Option ℚ)) : List (Option ℚ) :=
  (List.replicate (w - 1) (none : Option ℚ) ++ (startWins w src).map (fun o => o.map f)).take
    src.length

/-- Recursion of pandas ewm(adjust=False).mean() with min_periods masking:
the state carries the running value and the count of defined inputs seen.
Every ewm source in this file has only leading missing cells, for which
pandas semantics reduce to starting the recursion at the first defined
input. -/
def ewmGo (α : ℚ) (minp : Nat) (st : Option (ℚ × Nat)) : List (Option ℚ) → List (Option ℚ)
  | [] => []
  | x :: rest =>
    let st2 :=
      match st, x with
      | some (y, k), some v => some ((1 - α) * y + α * v, k + 1)
      | some (y, k), none => some (y, k)
      | none, some v => some (v, 1)
      | none, none => none
    (match st2 with
     | some (y, k) => if minp ≤ k then some y else none
     | none => none) :: ewmGo α minp st2 rest

def ewmCol (α : ℚ) (minp : Nat) (src : List (Option ℚ)) : List (Option ℚ) :=
  ewmGo α minp none src

section Indicators

variable (bars : List Bar) (sq : ℚ → ℚ)

def sma_20 : List (Option ℚ) := rollingCol 20 (fun vs => vs.sum / 20) (closeCol bars)

def sma_50 : List (Option ℚ) := rollingCol 50 (fun vs => vs.sum / 50) (closeCol bars)

def ema_12 : List (Option ℚ) := ewmCol (2 / 13) 12 (closeCol bars)

def ema_26 : List (Option ℚ) := ewmCol (2 / 27) 26 (closeCol bars)

def bb_middle : List (Option ℚ) := rollingCol 20 (fun vs => vs.sum / 20) (closeCol bars)

/-- Bollinger population standard deviation (ddof = 0); `sq` is the
third-party square root. -/
def bb_std : List (Option ℚ) :=
  rollingCol 20 (fun vs =>
    let m := vs.sum / 20
    sq (((vs.map (fun x => (x - m) ^ 2)).sum) / 20)) (closeCol bars)

def bb_upper : List (Option ℚ) :=
  zipO (fun m s => m + 2 * s) (bb_middle bars) (bb_std bars sq)

def bb_lower : List (Option ℚ) :=
  zipO (fun m s => m - 2 * s) (bb_middle bars) (bb_std bars sq)

/-- Width (upper - lower) / middle; undefined when the middle band is 0. -/
def bb_width : List (Option ℚ) :=
  zipOb oDiv (zipO (fun u l => u - l) (bb_upper bars sq) (bb_lower bars sq)) (bb_middle bars)

def diffCol : List (Option ℚ) :=
  zipO (fun c cp => c - cp) (closeCol bars) (shiftF 1 (closeCol bars))

/-- Upward move of ta RSIIndicator: diff(1).where(diff > 0, 0.0); the NaN
diff at index 0 compares false and the cell becomes 0. -/
def upDir : List (Option ℚ) :=
  (diffCol bars).map (fun o => some (match o with | some d => max d 0 | none => 0))

def dnDir : List (Option ℚ) :=
  (diffCol bars).map (fun o => some (match o with | some d => max (-d) 0 | none => 0))

def emaUp : List (Option ℚ) := ewmCol (1 / 14) 14 (upDir bars)

def emaDn : List (Option ℚ) := ewmCol (1 / 14) 14 (dnDir bars)

/-- RSI; ta maps a zero down-EMA to 100 instead of dividing by zero. -/
def rsi : List (Option ℚ) :=
  zipO (fun u d => if d = 0 then 100 else 100 - 100 / (1 + u / d)) (emaUp bars) (emaDn bars)

def macd : List (Option ℚ) := zipO (fun a b => a - b) (ema_12 bars) (ema_26 bars)

def macd_signal : List (Option ℚ) := ewmCol (2 / 10) 9 (macd bars)

def macd_histogram : List (Option ℚ) :=
  zipO (fun a b => a - b) (macd bars) (macd_signal bars)

def lowMin : List (Option ℚ) := rollingCol 14 (fun vs => (vs.min?).getD 0) (lowCol bars)

def highMax : List (Option ℚ) := rollingCol 14 (fun vs => (vs.max?).getD 0) (highCol bars)

/-- Stochastic %K: 100 (close - min low) / (max high - min low); a flat
window makes the denominator zero and the cell missing (0/0 in pandas). -/
def stoch_k : List (Option ℚ) :=
  zip3Ob (fun c mn mx =>
    if mx - mn = 0 then none else some (100 * (c - mn) / (mx - mn)))
    (closeCol bars) (lowMin bars) (highMax bars)

def stoch_d : List (Option ℚ) := rollingCol 3 (fun vs => vs.sum / 3) (stoch_k bars)

/-- True range; at index 0 the shifted close is missing and the pandas
row-max keeps high - low. -/
def trCol : List (Option ℚ) :=
  List.zipWith (fun hl cpo =>
    match hl, cpo with
    | some (hv, lv), some cp => some (max (hv - lv) (max |hv - cp| |lv - cp|))
    | some (hv, lv), none => some (hv - lv)
    | none, _ => none) (zipPair (highCol bars) (lowCol bars)) (shiftF 1 (closeCol bars))

/-- Loop of ta AverageTrueRange: zeros for the first window - 1 cells, the
window mean at cell 13, then the smoothing recursion.  A missing true
range never occurs on a frame row, so the propagation branch is inert. -/
def atrGo (acc : ℚ) (cur : Option ℚ) (k : Nat) : List (Option ℚ) → List (Option ℚ)
  | [] => []
  | t :: rest =>
    match cur, t with
    | some a, some tv =>
      let a2 := (a * 13 + tv) / 14
      some a2 :: atrGo 0 (some a2) (k + 1) rest
    | none, some tv =>
      if k = 13 then
        let a0 := (acc + tv) / 14
        some a0 :: atrGo 0 (some a0) (k + 1) rest
      else some 0 :: atrGo (acc + tv) none (k + 1) rest
    | _, none => none :: atrGo acc none (k + 1) rest

def atr : List (Option ℚ) := atrGo 0 none 0 (trCol bars)

def price_change : List (Option ℚ) :=
  zipOb (fun c cp => (oDiv c cp).map (fun q => q - 1)) (closeCol bars) (shiftF 1 (closeCol bars))

def high_low_ratio : List (Option ℚ) :=
  zip3Ob (fun hv lv c => oDiv (hv - lv) c) (highCol bars) (lowCol bars) (closeCol bars)

def open_close_ratio : List (Option ℚ) :=
  zipOb (fun o c => oDiv (c - o) o) (openCol bars) (closeCol bars)

/-- Trend flag (close > sma_20).astype(int): a missing SMA compares false
and yields 0, so the flag is defined on every frame row. -/
def price_above_sma20 : List (Option ℚ) :=
  List.zipWith (fun co so =>
    co.map (fun c =>
      match so with
      | some s => if s < c then (1 : ℚ) else 0
      | none => 0)) (closeCol bars) (sma_20 bars)

def price_above_sma50 : List (Option ℚ) :=
  List.zipWith (fun co so =>
    co.map (fun c =>
      match so with
      | some s => if s < c then (1 : ℚ) else 0
      | none => 0)) (closeCol bars) (sma_50 bars)

def sma20_above_sma50 : List (Option ℚ) :=
  List.zipWith (fun co ab =>
    co.map (fun _ =>
      match ab with
      | some (a, b) => if b < a then (1 : ℚ) else 0
      | none => 0)) (closeCol bars) (zipPair (sma_20 bars) (sma_50 bars))

/-- Every column of the frame after `calculate_technical_indicators` and
the lag loop of `prepare_features`, in source order; `dropna` keeps a row
only when all of them are defined. -/
def colList : List (List (Option ℚ)) :=
  [openCol bars, highCol bars, lowCol bars, closeCol bars,
   sma_20 bars, sma_50 bars, ema_12 bars, ema_26 bars,
   bb_upper bars sq, bb_middle bars, bb_lower bars sq, bb_width bars sq,
   rsi bars, macd bars, macd_signal bars, macd_histogram bars,
   stoch_k bars, stoch_d bars, atr bars,
   price_change bars, high_low_ratio bars, open_close_ratio bars,
   price_above_sma20 bars, price_above_sma50 bars, sma20_above_sma50 bars,
   shiftF 1 (closeCol bars), shiftF 2 (closeCol bars),
   shiftF 1 (rsi bars), shiftF 2 (rsi bars),
   shiftF 1 (macd bars), shiftF 2 (macd bars)]

end Indicators
structure FeatRow where
  close : ℚ
  sma20v : ℚ
  sma50v : ℚ
  ema12v : ℚ
  ema26v : ℚ
  bbWidthV : ℚ
  rsiV : ℚ
  macdV : ℚ
  macdSigV : ℚ
  macdHistV : ℚ
  stochKV : ℚ
  stochDV : ℚ
  atrV : ℚ
  priceChangeV : ℚ
  hlRatioV : ℚ
  ocRatioV : ℚ
  pAbove20V : ℚ
  pAbove50V : ℚ
  s20Above50V : ℚ
  closeLag1V : ℚ
  closeLag2V : ℚ
  rsiLag1V : ℚ
  rsiLag2V : ℚ
  macdLag1V : ℚ
  macdLag2V : ℚ
deriving DecidableEq

/-- Feature vector in the order of the stored feature-column list. -/
def featVec (r : FeatRow) : List ℚ :=
  [r.sma20v, r.sma50v, r.ema12v, r.ema26v, r.bbWidthV, r.rsiV, r.macdV,
   r.macdSigV, r.macdHistV, r.stochKV, r.stochDV, r.atrV, r.priceChangeV,
   r.hlRatioV, r.ocRatioV, r.pAbove20V, r.pAbove50V, r.s20Above50V,
   r.closeLag1V, r.closeLag2V, r.rsiLag1V, r.rsiLag2V, r.macdLag1V, r.macdLag2V]

/-- Value that `prepare_features` stores into `self.feature_columns`. -/
def feature_columns_list : List String :=
  ["sma_20", "sma_50", "ema_12", "ema_26", "bb_width", "rsi", "macd",
   "macd_signal", "macd_histogram", "stoch_k", "stoch_d", "atr",
   "price_change", "high_low_ratio", "open_close_ratio",
   "price_above_sma20", "price_above_sma50", "sma20_above_sma50",
   "close_lag1", "close_lag2", "rsi_lag1", "rsi_lag2", "macd_lag1", "macd_lag2"]

/-- Row-major view of the frame: the 31 cells of each row in column order. -/
def rowCells (bars : List Bar) (sq : ℚ → ℚ) : List (List (Option ℚ)) :=
  (colList bars sq).foldr (fun c a => List.zipWith (fun x y => x :: y) c a)
    (bars.map (fun _ => []))

/-- Build a FeatRow from the 31 cell values of a fully defined row,
selecting the close and the 24 feature columns by their position. -/
def mkRowFrom (vals : List ℚ) : FeatRow :=
  { close := vals.getD 3 0
    sma20v := vals.getD 4 0
    sma50v := vals.getD 5 0
    ema12v := vals.getD 6 0
    ema26v := vals.getD 7 0
    bbWidthV := vals.getD 11 0
    rsiV := vals.getD 12 0
    macdV := vals.getD 13 0
    macdSigV := vals.getD 14 0
    macdHistV := vals.getD 15 0
    stochKV := vals.getD 16 0
    stochDV := vals.getD 17 0
    atrV := vals.getD 18 0
    priceChangeV := vals.getD 19 0
    hlRatioV := vals.getD 20 0
    ocRatioV := vals.getD 21 0
    pAbove20V := vals.getD 22 0
    pAbove50V := vals.getD 23 0
    s20Above50V := vals.getD 24 0
    closeLag1V := vals.getD 25 0
    closeLag2V := vals.getD 26 0
    rsiLag1V := vals.getD 27 0
    rsiLag2V := vals.getD 28 0
    macdLag1V := vals.getD 29 0
    macdLag2V := vals.getD 30 0 }

/-- The prepared frame of `prepare_features`: indicators, lags, then
`dropna`, each surviving row tagged with its original bar index. -/
def prepare_features (bars : List Bar) (sq : ℚ → ℚ) : List (Nat × FeatRow) :=
  (rowCells bars sq).enum.filterMap (fun p => (seqOpt p.2).map (fun vals => (p.1, mkRowFrom vals)))

/-- The future return at position `j`:
close.shift(-lookahead) / close - 1, missing on the trailing rows. -/
def futureReturn (closes : List ℚ) (la j : Nat) : Option ℚ :=
  match closes[j + la]?, closes[j]? with
  | some cf, some cj => (oDiv cf cj).map (fun q => q - 1)
  | _, _ => none

/-- Label assignment of `create_labels`: default 0 (HOLD), 1 above the
threshold, -1 below its negation; a missing future return compares false
on both sides and keeps the default. -/
def labelOf (fr : Option ℚ) (θ : ℚ) : Int :=
  match fr with
  | some r => if θ < r then 1 else if r < -θ then -1 else 0
  | none => 0

/-- The shifted close column close.shift(-lookahead): the column dropped by
`la` positions, padded at the end with missing cells. -/
def shiftedCloses (la : Nat) (closes : List ℚ) : List (Option ℚ) :=
  (closes.drop la).map Option.some ++ List.replicate la (none : Option ℚ)

/-- Output of `create_labels` on a close column: every input row is kept
(nothing is dropped here), each paired with its future return and label. -/
def create_labels (la : Nat) (θ : ℚ) (closes : List ℚ) : List (Option ℚ × Int) :=
  (closes.zip (shiftedCloses la closes)).map (fun q =>
    let fr := match q.2 with
      | some cf => (oDiv cf q.1).map (fun r => r - 1)
      | none => none
    (fr, labelOf fr θ))

/-- A labeled row of the pipeline frame. -/
structure LabRow where
  idx : Nat
  row : FeatRow
  future_return : Option ℚ
  label : Int
deriving DecidableEq

/-- Labels attached to the prepared frame; the shift of `create_labels`
acts on the positions of the frame it is given. -/
def labelRows (la : Nat) (θ : ℚ) (rows : List (Nat × FeatRow)) : List LabRow :=
  (rows.zip (create_labels la θ (rows.map (fun p => p.2.close)))).map (fun q =>
    ⟨q.1.1, q.1.2, q.2.1, q.2.2⟩)

/-- The cleaned frame shared by `train_model` and `backtest_strategy`:
features, labels with the default lookahead 5 and threshold 0.001, then
`dropna` (at that point only `future_return` can still be missing). -/
def cleanRows (bars : List Bar) (sq : ℚ → ℚ) : List LabRow :=
  (labelRows 5 (1 / 1000) (prepare_features bars sq)).filter (fun lr => lr.future_return.isSome)

/-- The fitted StandardScaler: per-feature (mean, scale) pairs; `none`
models the freshly constructed, never fitted scaler of `__init__`. -/
structure ScalerState where
  params : Option (List (ℚ × ℚ))
deriving DecidableEq

/-- Mutable fields of `AITradingService`. -/
structure ServiceState (M : Type) where
  model : Option M
  scaler : ScalerState
  is_trained : Bool
  feature_columns : List String
deriving DecidableEq

/-- State built by `__init__`. -/
def initState (M : Type) : ServiceState M := ⟨none, ⟨none⟩, false, []⟩

/-- Column `j` of a row-major matrix. -/
def colOf (tX : List (List ℚ)) (j : Nat) : List ℚ := tX.map (fun rw => rw.getD j 0)

/-- StandardScaler fit: per column, mean and population standard deviation,
with a zero scale replaced by 1 as sklearn does. -/
def fitScaler (sq : ℚ → ℚ) (tX : List (List ℚ)) : List (ℚ × ℚ) :=
  let n : ℚ := tX.length
  let d := (tX.headD []).length
  (List.range d).map (fun j =>
    let c := colOf tX j
    let μ := c.sum / n
    let s := sq (((c.map (fun x => (x - μ) ^ 2)).sum) / n)
    (μ, if s = 0 then 1 else s))

/-- StandardScaler transform with the stored parameters; the unfitted
scaler is never applied on any path a theorem below covers. -/
def scalerTransform (sc : ScalerState) (v : List ℚ) : List ℚ :=
  match sc.params with
  | some ps => (v.zip ps).map (fun q => (q.1 - q.2.1) / q.2.2)
  | none => v

/-- Effective seed of an sklearn random_state argument: the fixed value
when one is passed, ambient entropy when it is None. -/
def effSeed (rs : Option Nat) (entropy : Nat) : Nat := rs.getD entropy

def gatherQ (xs : List (List ℚ)) (idx : List Nat) : List (List ℚ) :=
  idx.filterMap (fun i => xs[i]?)

def gatherI (ys : List Int) (idx : List Nat) : List Int :=
  idx.filterMap (fun i => ys[i]?)

section Service

variable {M : Type}
variable (fitRF : List (List ℚ) → List Int → Nat → M)
variable (predictRF : M → List ℚ → Int)
variable (probaRF : M → List ℚ → List ℚ)
variable (scoreRF : M → List (List ℚ) → List Int → ℚ)
variable (splitPerm : Nat → Nat → List Nat)
variable (sq : ℚ → ℚ)

/-- Embedding of `train_model` on already-fetched data `df?` (`none` models
a provider that returned nothing).  The first component is the returned
boolean and the post-call state; the second carries the train/test scores
the code computes for logging.  Note that `prepare_features` overwrites
`self.feature_columns` before the usable-row check, so the second failure
path already carries the new column list. -/
def train_model (df? : Option (List Bar)) (entropy : Nat) (s : ServiceState M) :
    (Bool × ServiceState M) × Option (ℚ × ℚ) :=
  match df? with
  | none => ((false, s), none)
  | some bars =>
    if bars.length < 100 then ((false, s), none)
    else
      let s1 := { s with feature_columns := feature_columns_list }
      let clean := cleanRows bars sq
      if clean.length < 100 then ((false, s1), none)
      else
        let X := clean.map (fun lr => featVec lr.row)
        let y := clean.map (fun lr => lr.label)
        let n := X.length
        let nTest := (n + 4) / 5
        let perm := splitPerm (effSeed (some 42) entropy) n
        let trainIdx := perm.drop nTest
        let testIdx := perm.take nTest
        let Xtr := gatherQ X trainIdx
        let Xte := gatherQ X testIdx
        let ytr := gatherI y trainIdx
        let yte := gatherI y testIdx
        let ps := fitScaler sq Xtr
        let XtrS := Xtr.map (scalerTransform ⟨some ps⟩)
        let XteS := Xte.map (scalerTransform ⟨some ps⟩)
        let m := fitRF XtrS ytr (effSeed (some 42) entropy)
        ((true, { model := some m, scaler := ⟨some ps⟩, is_trained := true,
                  feature_columns := feature_columns_list }),
         some (scoreRF m XtrS ytr, scoreRF m XteS yte))

/-- Structured signal built by `generate_signal`; `risk_reward_ratio` is
`none` when the float division produced NaN (0/0 at zero ATR). -/
structure SignalData where
  signal_type : String
  confidence_score : ℚ
  entry_price : ℚ
  stop_loss : ℚ
  take_profit : ℚ
  risk_reward_ratio : Option ℚ
  probabilities : List ℚ
  atrUsed : ℚ
  rsiUsed : ℚ
  macdUsed : ℚ
deriving DecidableEq

/-- Signal construction from the predicted class, class probabilities and
the latest close/ATR (lines 259-294 of ai_service.py).  A probability
vector too short for the confidence lookup raises IndexError in the code,
which the enclosing handler turns into None. -/
def mkSignalData (prediction : Int) (proba : List ℚ) (c a rsiv macdv : ℚ) :
    Option SignalData :=
  if prediction = 1 then
    match (if 2 < proba.length then proba[2]? else proba[1]?) with
    | none => none
    | some conf =>
      let entry := c
      let sl := c - 2 * a
      let tp := c + 3 * a
      some ⟨"buy", conf, entry, sl, tp, oDiv |tp - entry| |entry - sl|, proba, a, rsiv, macdv⟩
  else if prediction = -1 then
    match proba[0]? with
    | none => none
    | some conf =>
      let entry := c
      let sl := c + 2 * a
      let tp := c - 3 * a
      some ⟨"sell", conf, entry, sl, tp, oDiv |tp - entry| |entry - sl|, proba, a, rsiv, macdv⟩
  else none

/-- Embedding of `generate_signal`; `fetch` abstracts `get_market_data` as
a map from the requested bar count to the returned frame.  Paths on which
the code raises (missing model or unfitted scaler under `is_trained`)
return None through the enclosing handler. -/
def generate_signal (fetch : Nat → Option (List Bar)) (entropy : Nat)
    (s : ServiceState M) : Option SignalData × ServiceState M :=
  let tr :=
    if s.is_trained then (true, s)
    else (train_model fitRF scoreRF splitPerm sq (fetch 5000) entropy s).1
  if tr.1 = false then (none, tr.2)
  else
    match fetch 100 with
    | none => (none, tr.2)
    | some bars =>
      if bars.length < 50 then (none, tr.2)
      else
        let rows := prepare_features bars sq
        let s1 := { tr.2 with feature_columns := feature_columns_list }
        match rows.getLast? with
        | none => (none, s1)
        | some ir =>
          match s1.model, s1.scaler.params with
          | some m, some ps =>
            let scaled := scalerTransform ⟨some ps⟩ (featVec ir.2)
            let p := predictRF m scaled
            let proba := probaRF m scaled
            (mkSignalData p proba ir.2.close ir.2.atrV ir.2.rsiV ir.2.macdV, s1)
          | _, _ => (none, s1)

/-- An open position of the backtest simulator. -/
structure Position where
  isBuy : Bool
  entry_price : ℚ
  entry_time : Nat
  size : ℚ
deriving DecidableEq

/-- A completed trade record. -/
structure TradeRec where
  entry_time : Nat
  exit_time : Nat
  isBuy : Bool
  entry_price : ℚ
  exit_price : ℚ
  profit : ℚ
  exit_reason : String
deriving DecidableEq

/-- Running state of the simulation loop. -/
structure SimState where
  balance : ℚ
  position : Option Position
  trades : List TradeRec
deriving DecidableEq

def simInit : SimState := ⟨10000, none, []⟩

/-- One iteration of the simulation loop (lines 373-427): open when flat on
a non-HOLD prediction with size 10 percent of balance over price, close an
open position only on signal reversal. -/
def simStep (pred : LabRow → Int) (st : SimState) (lr : LabRow) : SimState :=
  let p := pred lr
  let c := lr.row.close
  match st.position with
  | none =>
    if p ≠ 0 then
      { st with position := some ⟨p = 1, c, lr.idx, st.balance * (1 / 10) / c⟩ }
    else st
  | some pos =>
    if (pos.isBuy ∧ p = -1) ∨ (pos.isBuy = false ∧ p = 1) then
      let profit :=
        if pos.isBuy then (c - pos.entry_price) * pos.size
        else (pos.entry_price - c) * pos.size
      { balance := st.balance + profit,
        position := none,
        trades := st.trades ++
          [⟨pos.entry_time, lr.idx, pos.isBuy, pos.entry_price, c, profit, "Signal reversal"⟩] }
    else st

/-- The performance report assembled from the final simulation state. -/
structure Report where
  initial_balance : ℚ
  final_balance : ℚ
  total_return_pct : ℚ
  num_trades : Nat
  winning_trades : Nat
  win_rate_pct : ℚ
  average_profit_per_trade : ℚ
  trades : List TradeRec
deriving DecidableEq

def mkReport (ss : SimState) : Report :=
  let initial : ℚ := 10000
  let n := ss.trades.length
  let wins := (ss.trades.filter (fun t => decide (0 < t.profit))).length
  { initial_balance := initial
    final_balance := ss.balance
    total_return_pct := (ss.balance - initial) / initial * 100
    num_trades := n
    winning_trades := wins
    win_rate_pct := if 0 < n then (wins : ℚ) / (n : ℚ) * 100 else 0
    average_profit_per_trade :=
      if 0 < n then ((ss.trades.map (fun t => t.profit)).sum) / (n : ℚ) else 0
    trades := ss.trades.drop (ss.trades.length - 10) }

/-- Embedding of `backtest_strategy`; the report is `none` exactly when the
code returns the empty dict.  When `is_trained` is set but the model or
scaler is missing, the first loop iteration raises and the handler returns
the empty dict; with no loop iteration the report is still produced. -/
def backtest_strategy (fetch : Nat → Option (List Bar)) (days : Nat)
    (s : ServiceState M) : Option Report × ServiceState M :=
  match fetch (days * 24) with
  | none => (none, s)
  | some bars =>
    if bars.length < 100 then (none, s)
    else
      let s1 := { s with feature_columns := feature_columns_list }
      let clean := cleanRows bars sq
      if clean.length < 50 then (none, s1)
      else
        if s1.is_trained then
          match s1.model, s1.scaler.params with
          | some m, some ps =>
            let pred := fun lr => predictRF m (scalerTransform ⟨some ps⟩ (featVec lr.row))
            (some (mkReport ((clean.drop 50).foldl (simStep pred) simInit)), s1)
          | _, _ =>
            if clean.length ≤ 50 then (some (mkReport simInit), s1) else (none, s1)
        else (some (mkReport simInit), s1)

end Service

/-- Constant series: every OHLC field of every bar is 1. -/
def flatBars (n : Nat) : List Bar := (List.range n).map (fun _ => ⟨1, 1, 1, 1⟩)

/-- Strictly increasing series: every OHLC field of bar i is 100 + i. -/
def linBars (n : Nat) : List Bar :=
  (List.range n).map (fun i => let p : ℚ := 100 + i; ⟨p, p, p, p⟩)

/-- Steady series: open and close 100, high 101, low 99 on every bar, so
every window has a positive high-low range and a positive ATR. -/
def stdBars (n : Nat) : List Bar := (List.range n).map (fun _ => ⟨100, 101, 99, 100⟩)

/-- Cell of a column at an index (missing when out of range). -/
def cellAt (col : List (Option ℚ)) (i : Nat) : Option ℚ := (col[i]?).getD none

/-- Denominator of the stochastic oscillator at an index: the spread
between the rolling high maximum and the rolling low minimum. -/
def stochDenAt (bars : List Bar) (i : Nat) : ℚ :=
  match cellAt (highMax bars) i, cellAt (lowMin bars) i with
  | some mx, some mn => mx - mn
  | _, _ => 0

/-! Basic facts about `seqOpt`. -/

theorem seqOpt_isSome {l : List (Option ℚ)} :
    (seqOpt l).isSome ↔ ∀ o ∈ l, o.isSome := by
  induction l with
  | nil => simp [seqOpt]
  | cons x rest ih =>
    cases x with
    | none => simp [seqOpt]
    | some v =>
      have hmap : (Option.map (fun x => v :: x) (seqOpt rest)).isSome = (seqOpt rest).isSome := by
        cases seqOpt rest <;> rfl
      simp only [seqOpt, hmap]
      constructor
      · intro h o ho
        rcases List.mem_cons.mp ho with h1 | h2
        · simp [h1]
        · exact ih.mp h o h2
      · intro h
        exact ih.mpr (fun o ho => h o (List.mem_cons_of_mem _ ho))

theorem seqOpt_eq_none {l : List (Option ℚ)} (h : none ∈ l) : seqOpt l = none := by
  induction l with
  | nil => simp at h
  | cons x rest ih =>
    rcases List.mem_cons.mp h with h1 | h2
    · rw [← h1]; rfl
    · cases x with
      | none => rfl
      | some v => simp [seqOpt, ih h2]

theorem seqOpt_map_some (xs : List ℚ) : seqOpt (xs.map some) = some xs := by
  induction xs with
  | nil => rfl
  | cons x rest ih => simp [seqOpt, ih]

theorem seqOpt_mem {l : List (Option ℚ)} {xs : List ℚ} (h : seqOpt l = some xs) :
    ∀ x ∈ xs, some x ∈ l := by
  induction l generalizing xs with
  | nil =>
    simp only [seqOpt, Option.some.injEq] at h
    subst h; simp
  | cons o rest ih =>
    cases o with
    | none => simp [seqOpt] at h
    | some v =>
      simp only [seqOpt, Option.map_eq_some'] at h
      obtain ⟨ys, hys, hxs⟩ := h
      subst hxs
      intro x hx
      rcases List.mem_cons.mp hx with h1 | h2
      · simp [h1]
      · exact List.mem_cons_of_mem _ (ih hys x h2)

theorem seqOpt_length {l : List (Option ℚ)} {xs : List ℚ} (h : seqOpt l = some xs) :
    xs.length = l.length := by
  induction l generalizing xs with
  | nil => simp only [seqOpt, Option.some.injEq] at h; subst h; rfl
  | cons o rest ih =>
    cases o with
    | none => simp [seqOpt] at h
    | some v =>
      simp only [seqOpt, Option.map_eq_some'] at h
      obtain ⟨ys, hys, hxs⟩ := h
      subst hxs
      simp [ih hys]

/-- Counting the defined cells of a column whose cells are defined exactly
from index `s` on. -/
theorem countP_isSome_of_iff {l : List (Option ℚ)} {s : Nat}
    (h : ∀ j, (hj : j < l.length) → (l[j].isSome = true ↔ s ≤ j)) :
    l.countP Option.isSome = l.length - s := by
  induction l generalizing s with
  | nil => simp
  | cons x rest ih =>
    cases s with
    | zero =>
      have hall : ∀ o ∈ x :: rest, o.isSome := by
        intro o ho
        obtain ⟨j, hj, rfl⟩ := List.mem_iff_getElem.mp ho
        exact (h j hj).mpr (Nat.zero_le _)
      rw [List.countP_eq_length.mpr (fun o ho => hall o ho)]
      simp
    | succ s' =>
      have hx : x.isSome = false := by
        have h0 := h 0 (by simp)
        simp only [List.getElem_cons_zero] at h0
        cases hxv : x.isSome with
        | false => rfl
        | true =>
          have : s' + 1 ≤ 0 := h0.mp hxv
          omega
      have hrest : ∀ j, (hj : j < rest.length) → (rest[j].isSome = true ↔ s' ≤ j) := by
        intro j hj
        have := h (j + 1) (by simpa using Nat.succ_lt_succ hj)
        simpa [Nat.succ_le_succ_iff] using this
      rw [List.countP_cons, ih hrest]
      simp [hx]

/-! Lengths of the column combinators. -/

@[simp] theorem length_closeCol (bars : List Bar) : (closeCol bars).length = bars.length := by
  simp [closeCol]

@[simp] theorem length_openCol (bars : List Bar) : (openCol bars).length = bars.length := by
  simp [openCol]

@[simp] theorem length_highCol (bars : List Bar) : (highCol bars).length = bars.length := by
  simp [highCol]

@[simp] theorem length_lowCol (bars : List Bar) : (lowCol bars).length = bars.length := by
  simp [lowCol]

theorem length_shiftF (k : Nat) (src : List (Option ℚ)) :
    (shiftF k src).length = max src.length k := by
  simp only [shiftF, List.length_append, List.length_replicate, List.length_take]
  omega

theorem length_startWins (w : Nat) (src : List (Option ℚ)) :
    (startWins w src).length = src.length := by
  induction src with
  | nil => rfl
  | cons x rest ih => simp [startWins, ih]

theorem length_rollingCol (w : Nat) (f : List ℚ → ℚ) (src : List (Option ℚ)) :
    (rollingCol w f src).length = src.length := by
  simp only [rollingCol, List.length_take, List.length_append, List.length_replicate,
    List.length_map, length_startWins]
  omega

theorem length_ewmGo (α : ℚ) (minp : Nat) (st : Option (ℚ × Nat)) (src : List (Option ℚ)) :
    (ewmGo α minp st src).length = src.length := by
  induction src generalizing st with
  | nil => rfl
  | cons x rest ih => simp [ewmGo, ih]

theorem length_ewmCol (α : ℚ) (minp : Nat) (src : List (Option ℚ)) :
    (ewmCol α minp src).length = src.length := length_ewmGo ..

theorem length_zipO (f : ℚ → ℚ → ℚ) (a b : List (Option ℚ)) :
    (zipO f a b).length = min a.length b.length := by
  simp [zipO]

theorem length_zipOb (f : ℚ → ℚ → Option ℚ) (a b : List (Option ℚ)) :
    (zipOb f a b).length = min a.length b.length := by
  simp [zipOb]

theorem length_zipPair (a b : List (Option ℚ)) :
    (zipPair a b).length = min a.length b.length := by
  simp [zipPair]

theorem length_zip3Ob (f : ℚ → ℚ → ℚ → Option ℚ) (a b c : List (Option ℚ)) :
    (zip3Ob f a b c).length = min (min a.length b.length) c.length := by
  simp [zip3Ob, length_zipPair]

theorem length_atrGo (acc : ℚ) (cur : Option ℚ) (k : Nat) (src : List (Option ℚ)) :
    (atrGo acc cur k src).length = src.length := by
  induction src generalizing acc cur k with
  | nil => rfl
  | cons t rest ih =>
    cases cur with
    | some a =>
      cases t with
      | some tv => simp [atrGo, ih]
      | none => simp [atrGo, ih]
    | none =>
      cases t with
      | some tv =>
        by_cases hk : k = 13 <;> simp [atrGo, hk, ih]
      | none => simp [atrGo, ih]

/-! Cell characterizations of the column combinators. -/

theorem shiftF_getElem {k i : Nat} {src : List (Option ℚ)} (hi : i < src.length) :
    (shiftF k src)[i]? = if i < k then some none else src[i - k]? := by
  simp only [shiftF, List.getElem?_append, List.length_replicate, List.getElem?_replicate,
    List.getElem?_take]
  by_cases h : i < k
  · simp [h]
  · simp only [h, if_false]
    have h2 : i - k < src.length - k := by omega
    simp [h2]

theorem startWins_getElem {w : Nat} {src : List (Option ℚ)} :
    ∀ {j : Nat}, j < src.length →
      (startWins w src)[j]? =
        some (if w ≤ src.length - j then seqOpt ((src.drop j).take w) else none) := by
  induction src with
  | nil => intro j hj; simp at hj
  | cons x rest ih =>
    intro j hj
    cases j with
    | zero => simp [startWins]
    | succ j' =>
      have hj' : j' < rest.length := by simpa using hj
      simp only [startWins, List.getElem?_cons_succ, ih hj', List.drop_succ_cons,
        List.length_cons]
      have heq : rest.length - j' = rest.length + 1 - (j' + 1) := by omega
      rw [heq]

theorem rollingCol_getElem {w i : Nat} {f : List ℚ → ℚ} {src : List (Option ℚ)}
    (hw : 1 ≤ w) (hi : i < src.length) :
    (rollingCol w f src)[i]? =
      some (if i + 1 < w then none
            else (seqOpt ((src.drop (i + 1 - w)).take w)).map f) := by
  simp only [rollingCol, List.getElem?_take, hi, if_pos, List.getElem?_append,
    List.length_replicate, List.getElem?_replicate]
  by_cases h : i < w - 1
  · have h2 : i + 1 < w := by omega
    simp [h, h2]
  · have h2 : ¬ i + 1 < w := by omega
    have h3 : i - (w - 1) < (startWins w src).length := by
      rw [length_startWins]; omega
    have h4 : i - (w - 1) < src.length := by omega
    simp only [h, if_false, h2, List.getElem?_map, startWins_getElem h4]
    have h5 : w ≤ src.length - (i - (w - 1)) := by omega
    have h6 : i - (w - 1) = i + 1 - w := by omega
    rw [h6] at h5
    simp [h5, h6]

/-- The running count of an ewm state. -/
def stCount : Option (ℚ × Nat) → Nat
  | some (_, k) => k
  | none => 0

theorem ewmGo_getElem {α : ℚ} {minp : Nat} (hminp : 1 ≤ minp) :
    ∀ {src : List (Option ℚ)} (st : Option (ℚ × Nat)) {j : Nat}, j < src.length →
      ∃ y, (ewmGo α minp st src)[j]? = some y ∧
        (y.isSome = true ↔ minp ≤ stCount st + (src.take (j + 1)).countP Option.isSome) := by
  intro src
  induction src with
  | nil => intro st j hj; simp at hj
  | cons x rest ih =>
    intro st j hj
    rcases st with _ | ⟨y0, k0⟩
    · rcases x with _ | v
      · cases j with
        | zero =>
          refine ⟨none, by simp [ewmGo], ?_⟩
          simp only [Option.isSome_none, stCount, List.take_succ_cons, List.take_zero,
            List.countP_cons, List.countP_nil]
          simp only [Option.isSome_none, Bool.false_eq_true, if_false]
          constructor
          · intro h; exact absurd h (by simp)
          · intro h; omega
        | succ j' =>
          have hj' : j' < rest.length := by simpa using hj
          obtain ⟨y, hy, hiff⟩ := ih none hj'
          refine ⟨y, by simpa [ewmGo] using hy, ?_⟩
          rw [hiff]
          simp [stCount, List.countP_cons]
      · cases j with
        | zero =>
          refine ⟨if minp ≤ 1 then some v else none, by simp [ewmGo], ?_⟩
          simp only [stCount, List.take_succ_cons, List.take_zero, List.countP_cons,
            List.countP_nil, Option.isSome_some, if_true]
          by_cases hm : minp ≤ 1 <;> simp [hm]
        | succ j' =>
          have hj' : j' < rest.length := by simpa using hj
          obtain ⟨y, hy, hiff⟩ := ih (some (v, 1)) hj'
          refine ⟨y, by simpa [ewmGo] using hy, ?_⟩
          rw [hiff]
          simp only [stCount, List.take_succ_cons, List.countP_cons, Option.isSome_some,
            if_true]
          omega
    · rcases x with _ | v
      · cases j with
        | zero =>
          refine ⟨if minp ≤ k0 then some y0 else none, by simp [ewmGo], ?_⟩
          simp only [stCount, List.take_succ_cons, List.take_zero, List.countP_cons,
            List.countP_nil, Option.isSome_none, Bool.false_eq_true, if_false]
          by_cases hm : minp ≤ k0 <;> simp [hm]
        | succ j' =>
          have hj' : j' < rest.length := by simpa using hj
          obtain ⟨y, hy, hiff⟩ := ih (some (y0, k0)) hj'
          refine ⟨y, by simpa [ewmGo] using hy, ?_⟩
          rw [hiff]
          simp only [stCount, List.take_succ_cons, List.countP_cons, Option.isSome_none,
            Bool.false_eq_true, if_false]
          omega
      · cases j with
        | zero =>
          refine ⟨if minp ≤ k0 + 1 then some ((1 - α) * y0 + α * v) else none,
            by simp [ewmGo], ?_⟩
          simp only [stCount, List.take_succ_cons, List.take_zero, List.countP_cons,
            List.countP_nil, Option.isSome_some, if_true]
          by_cases hm : minp ≤ k0 + 1 <;> simp [hm]
        | succ j' =>
          have hj' : j' < rest.length := by simpa using hj
          obtain ⟨y, hy, hiff⟩ := ih (some ((1 - α) * y0 + α * v, k0 + 1)) hj'
          refine ⟨y, by simpa [ewmGo] using hy, ?_⟩
          rw [hiff]
          simp only [stCount, List.take_succ_cons, List.countP_cons, Option.isSome_some,
            if_true]
          omega

theorem atrGo_getElem_isSome {src : List (Option ℚ)} (hsrc : ∀ c ∈ src, c.isSome) :
    ∀ (acc : ℚ) (cur : Option ℚ) (k : Nat) {j : Nat}, j < src.length →
      ∃ v, (atrGo acc cur k src)[j]? = some (some v) := by
  induction src with
  | nil => intro acc cur k j hj; simp at hj
  | cons t rest ih =>
    intro acc cur k j hj
    have ht : t.isSome := hsrc t (List.mem_cons_self ..)
    obtain ⟨tv, rfl⟩ := Option.isSome_iff_exists.mp ht
    have hrest : ∀ c ∈ rest, c.isSome := fun c hc => hsrc c (List.mem_cons_of_mem _ hc)
    cases j with
    | zero =>
      cases cur with
      | some a => exact ⟨(a * 13 + tv) / 14, by simp [atrGo]⟩
      | none =>
        by_cases hk : k = 13
        · subst hk; exact ⟨(acc + tv) / 14, by simp [atrGo]⟩
        · exact ⟨0, by simp [atrGo, hk]⟩
    | succ j' =>
      have hj' : j' < rest.length := by simpa using hj
      cases cur with
      | some a =>
        obtain ⟨v, hv⟩ := ih hrest 0 (some ((a * 13 + tv) / 14)) (k + 1) hj'
        exact ⟨v, by simpa [atrGo] using hv⟩
      | none =>
        by_cases hk : k = 13
        · subst hk
          obtain ⟨v, hv⟩ := ih hrest 0 (some ((acc + tv) / 14)) (13 + 1) hj'
          exact ⟨v, by simpa [atrGo] using hv⟩
        · obtain ⟨v, hv⟩ := ih hrest (acc + tv) none (k + 1) hj'
          exact ⟨v, by simpa [atrGo, hk] using hv⟩

/-! The transpose used to assemble rows. -/

theorem transpose_length (cols init : List (List (Option ℚ)))
    (hc : ∀ c ∈ cols, init.length ≤ c.length) :
    (cols.foldr (fun c a => List.zipWith (fun x y => x :: y) c a) init).length
      = init.length := by
  induction cols with
  | nil => rfl
  | cons c cs ih =>
    have hc' : ∀ d ∈ cs, init.length ≤ d.length := fun d hd => hc d (List.mem_cons_of_mem _ hd)
    have h1 := hc c (List.mem_cons_self ..)
    simp only [List.foldr_cons, List.length_zipWith, ih hc']
    omega

theorem transpose_getElem (cols init : List (List (Option ℚ))) {i : Nat}
    (hi : i < init.length) (hc : ∀ c ∈ cols, init.length ≤ c.length) :
    (cols.foldr (fun c a => List.zipWith (fun x y => x :: y) c a) init)[i]?
      = (init[i]?).map (fun cell => cols.foldr (fun c acc => cellAt c i :: acc) cell) := by
  induction cols with
  | nil =>
    simp only [List.foldr_nil]
    rw [List.getElem?_eq_getElem hi]
    rfl
  | cons c cs ih =>
    have hc' : ∀ d ∈ cs, init.length ≤ d.length := fun d hd => hc d (List.mem_cons_of_mem _ hd)
    have h1 : i < c.length := lt_of_lt_of_le hi (hc c (List.mem_cons_self ..))
    simp only [List.foldr_cons, List.getElem?_zipWith, ih hc']
    rw [List.getElem?_eq_getElem h1, List.getElem?_eq_getElem hi]
    simp [cellAt, List.getElem?_eq_getElem h1]

/-! Cell lemmas for total sources. -/

theorem closeCol_eq (bars : List Bar) : closeCol bars = (bars.map Bar.close).map Option.some := by
  simp [closeCol]

theorem openCol_eq (bars : List Bar) : openCol bars = (bars.map Bar.open_).map Option.some := by
  simp [openCol]

theorem highCol_eq (bars : List Bar) : highCol bars = (bars.map Bar.high).map Option.some := by
  simp [highCol]

theorem lowCol_eq (bars : List Bar) : lowCol bars = (bars.map Bar.low).map Option.some := by
  simp [lowCol]

theorem cellAt_map_some {xs : List ℚ} {i : Nat} (hi : i < xs.length) :
    cellAt (xs.map Option.some) i = some xs[i] := by
  simp [cellAt, List.getElem?_eq_getElem hi]

/-- Rolling cell over a fully defined source: the cell is the aggregate of
the `w` source values ending there once the window is complete. -/
theorem cell_rolling_total {w : Nat} {f : List ℚ → ℚ} {xs : List ℚ} {i : Nat}
    (hw : 1 ≤ w) (hi : i < xs.length) :
    cellAt (rollingCol w f (xs.map Option.some)) i
      = if i + 1 < w then none else some (f ((xs.drop (i + 1 - w)).take w)) := by
  have hi' : i < (xs.map Option.some).length := by simpa using hi
  rw [cellAt, rollingCol_getElem hw hi']
  by_cases h : i + 1 < w
  · simp [h]
  · simp only [h, if_false, Option.getD_some]
    rw [← List.map_drop, ← List.map_take, seqOpt_map_some]
    rfl

/-- Ewm cell over a fully defined source. -/
theorem cell_ewm_total_isSome {α : ℚ} {minp : Nat} {src : List (Option ℚ)} {i : Nat}
    (hminp : 1 ≤ minp) (hi : i < src.length) (hsrc : ∀ c ∈ src, c.isSome) :
    (cellAt (ewmCol α minp src) i).isSome = true ↔ minp ≤ i + 1 := by
  obtain ⟨y, hy, hiff⟩ := @ewmGo_getElem α minp hminp src none i hi
  rw [cellAt, ewmCol, hy]
  simp only [Option.getD_some]
  rw [hiff]
  have hcnt : (src.take (i + 1)).countP Option.isSome = i + 1 := by
    rw [List.countP_eq_length.mpr (fun o ho => hsrc o (List.mem_of_mem_take ho))]
    simp [List.length_take]
    omega
  simp [stCount, hcnt]

/-- Ewm cell over a source defined exactly from index `s` on. -/
theorem cell_ewm_from_isSome {α : ℚ} {minp s : Nat} {src : List (Option ℚ)} {i : Nat}
    (hminp : 1 ≤ minp) (hi : i < src.length)
    (hsrc : ∀ j, (hj : j < src.length) → (src[j].isSome = true ↔ s ≤ j)) :
    (cellAt (ewmCol α minp src) i).isSome = true ↔ minp + s ≤ i + 1 := by
  obtain ⟨y, hy, hiff⟩ := @ewmGo_getElem α minp hminp src none i hi
  rw [cellAt, ewmCol, hy]
  simp only [Option.getD_some]
  rw [hiff]
  have hlen : (src.take (i + 1)).length = i + 1 := by simp [List.length_take]; omega
  have hcnt : (src.take (i + 1)).countP Option.isSome = (i + 1) - s := by
    rw [countP_isSome_of_iff (s := s), hlen]
    intro j hj
    rw [hlen] at hj
    have hj2 : j < src.length := by omega
    rw [List.getElem_take]
    exact hsrc j hj2
  simp only [stCount, Nat.zero_add, hcnt]
  omega

/-! Exact lengths of all columns. -/

section ColLengths

variable (bars : List Bar) (sq : ℚ → ℚ)

@[simp] theorem length_sma_20 : (sma_20 bars).length = bars.length := by
  simp [sma_20, length_rollingCol, length_closeCol]

@[simp] theorem length_sma_50 : (sma_50 bars).length = bars.length := by
  simp [sma_50, length_rollingCol, length_closeCol]

@[simp] theorem length_ema_12 : (ema_12 bars).length = bars.length := by
  simp [ema_12, length_ewmCol, length_closeCol]

@[simp] theorem length_ema_26 : (ema_26 bars).length = bars.length := by
  simp [ema_26, length_ewmCol, length_closeCol]

@[simp] theorem length_bb_middle : (bb_middle bars).length = bars.length := by
  simp [bb_middle, length_rollingCol, length_closeCol]

@[simp] theorem length_bb_std : (bb_std bars sq).length = bars.length := by
  simp [bb_std, length_rollingCol, length_closeCol]

@[simp] theorem length_bb_upper : (bb_upper bars sq).length = bars.length := by
  simp [bb_upper, length_zipO]

@[simp] theorem length_bb_lower : (bb_lower bars sq).length = bars.length := by
  simp [bb_lower, length_zipO]

@[simp] theorem length_bb_width : (bb_width bars sq).length = bars.length := by
  simp [bb_width, length_zipOb, length_zipO]

@[simp] theorem length_diffCol : (diffCol bars).length = bars.length := by
  simp only [diffCol, length_zipO, length_shiftF, length_closeCol]
  omega

@[simp] theorem length_upDir : (upDir bars).length = bars.length := by
  simp [upDir]

@[simp] theorem length_dnDir : (dnDir bars).length = bars.length := by
  simp [dnDir]

@[simp] theorem length_emaUp : (emaUp bars).length = bars.length := by
  simp [emaUp, length_ewmCol]

@[simp] theorem length_emaDn : (emaDn bars).length = bars.length := by
  simp [emaDn, length_ewmCol]

@[simp] theorem length_rsi : (rsi bars).length = bars.length := by
  simp [rsi, length_zipO]

@[simp] theorem length_macd : (macd bars).length = bars.length := by
  simp [macd, length_zipO]

@[simp] theorem length_macd_signal : (macd_signal bars).length = bars.length := by
  simp [macd_signal, length_ewmCol]

@[simp] theorem length_macd_histogram : (macd_histogram bars).length = bars.length := by
  simp [macd_histogram, length_zipO]

@[simp] theorem length_lowMin : (lowMin bars).length = bars.length := by
  simp [lowMin, length_rollingCol, length_lowCol]

@[simp] theorem length_highMax : (highMax bars).length = bars.length := by
  simp [highMax, length_rollingCol, length_highCol]

@[simp] theorem length_stoch_k : (stoch_k bars).length = bars.length := by
  simp [stoch_k, length_zip3Ob, length_closeCol]

@[simp] theorem length_stoch_d : (stoch_d bars).length = bars.length := by
  simp [stoch_d, length_rollingCol]

@[simp] theorem length_trCol : (trCol bars).length = bars.length := by
  simp only [trCol, List.length_zipWith, length_zipPair, length_highCol, length_lowCol,
    length_shiftF, length_closeCol]
  omega

@[simp] theorem length_atr : (atr bars).length = bars.length := by
  simp [atr, length_atrGo]

@[simp] theorem length_price_change : (price_change bars).length = bars.length := by
  simp only [price_change, length_zipOb, length_shiftF, length_closeCol]
  omega

@[simp] theorem length_high_low_ratio : (high_low_ratio bars).length = bars.length := by
  simp [high_low_ratio, length_zip3Ob, length_highCol, length_lowCol, length_closeCol]

@[simp] theorem length_open_close_ratio : (open_close_ratio bars).length = bars.length := by
  simp [open_close_ratio, length_zipOb, length_openCol, length_closeCol]

@[simp] theorem length_price_above_sma20 : (price_above_sma20 bars).length = bars.length := by
  simp [price_above_sma20, length_closeCol]

@[simp] theorem length_price_above_sma50 : (price_above_sma50 bars).length = bars.length := by
  simp [price_above_sma50, length_closeCol]

@[simp] theorem length_sma20_above_sma50 : (sma20_above_sma50 bars).length = bars.length := by
  simp [sma20_above_sma50, length_zipPair, length_closeCol]

end ColLengths

/-! Cell helpers for the zip combinators. -/

theorem cellAt_eq_getElem {l : List (Option ℚ)} {i : Nat} (hi : i < l.length) :
    cellAt l i = l[i] := by
  simp [cellAt, List.getElem?_eq_getElem hi]

theorem cell_zipO {f : ℚ → ℚ → ℚ} {a b : List (Option ℚ)} {i : Nat}
    (ha : i < a.length) (hb : i < b.length) :
    cellAt (zipO f a b) i =
      match cellAt a i, cellAt b i with
      | some u, some v => some (f u v)
      | _, _ => none := by
  simp only [cellAt, zipO, List.getElem?_zipWith, List.getElem?_eq_getElem ha,
    List.getElem?_eq_getElem hb]
  rfl

theorem cell_zipOb {f : ℚ → ℚ → Option ℚ} {a b : List (Option ℚ)} {i : Nat}
    (ha : i < a.length) (hb : i < b.length) :
    cellAt (zipOb f a b) i =
      match cellAt a i, cellAt b i with
      | some u, some v => f u v
      | _, _ => none := by
  simp only [cellAt, zipOb, List.getElem?_zipWith, List.getElem?_eq_getElem ha,
    List.getElem?_eq_getElem hb]
  cases a[i] with
  | none => rfl
  | some u => cases b[i] <;> rfl

theorem cell_zipPair {a b : List (Option ℚ)} {i : Nat}
    (ha : i < a.length) (hb : i < b.length) :
    (zipPair a b)[i]? =
      some (match cellAt a i, cellAt b i with
            | some u, some v => some (u, v)
            | _, _ => none) := by
  rw [cellAt_eq_getElem ha, cellAt_eq_getElem hb]
  simp only [zipPair, List.getElem?_zipWith, List.getElem?_eq_getElem ha,
    List.getElem?_eq_getElem hb]

theorem cell_zip3Ob {f : ℚ → ℚ → ℚ → Option ℚ} {a b z : List (Option ℚ)} {i : Nat}
    (ha : i < a.length) (hb : i < b.length) (hz : i < z.length) :
    cellAt (zip3Ob f a b z) i =
      match cellAt a i, cellAt b i, cellAt z i with
      | some u, some v, some w => f u v w
      | _, _, _ => none := by
  simp only [cellAt, zip3Ob, List.getElem?_zipWith, cell_zipPair ha hb,
    List.getElem?_eq_getElem hz]
  cases (a[i]?).getD none with
  | none => rfl
  | some u =>
    cases (b[i]?).getD none with
    | none => rfl
    | some v => cases z[i] <;> rfl

theorem cell_shiftF {k i : Nat} {src : List (Option ℚ)} (hi : i < src.length) :
    cellAt (shiftF k src) i = if i < k then none else cellAt src (i - k) := by
  rw [cellAt, shiftF_getElem hi]
  by_cases h : i < k
  · simp [h]
  · simp [h, cellAt]

theorem match2_isSome (x y : Option ℚ) (f : ℚ → ℚ → ℚ) :
    (match x, y with
     | some u, some v => some (f u v)
     | _, _ => (none : Option ℚ)).isSome = true ↔ x.isSome ∧ y.isSome := by
  cases x <;> cases y <;> simp

/-! Per-column cell facts. -/

section ColCells

variable {bars : List Bar} {sq : ℚ → ℚ} {i : Nat}

theorem closeCol_all_isSome : ∀ o ∈ closeCol bars, o.isSome := by
  intro o ho
  obtain ⟨b, _, rfl⟩ := List.mem_map.mp ho
  rfl

theorem upDir_all_isSome : ∀ o ∈ upDir bars, o.isSome := by
  intro o ho
  obtain ⟨x, _, rfl⟩ := List.mem_map.mp ho
  rfl

theorem dnDir_all_isSome : ∀ o ∈ dnDir bars, o.isSome := by
  intro o ho
  obtain ⟨x, _, rfl⟩ := List.mem_map.mp ho
  rfl

theorem cell_closeCol (hi : i < bars.length) :
    cellAt (closeCol bars) i = some bars[i].close := by
  rw [closeCol_eq]
  rw [cellAt_map_some (by simpa using hi)]
  simp

theorem cell_openCol (hi : i < bars.length) :
    cellAt (openCol bars) i = some bars[i].open_ := by
  rw [openCol_eq]
  rw [cellAt_map_some (by simpa using hi)]
  simp

theorem cell_highCol (hi : i < bars.length) :
    cellAt (highCol bars) i = some bars[i].high := by
  rw [highCol_eq]
  rw [cellAt_map_some (by simpa using hi)]
  simp

theorem cell_lowCol (hi : i < bars.length) :
    cellAt (lowCol bars) i = some bars[i].low := by
  rw [lowCol_eq]
  rw [cellAt_map_some (by simpa using hi)]
  simp

theorem cell_sma_20 (hi : i < bars.length) :
    cellAt (sma_20 bars) i =
      if i + 1 < 20 then none
      else some ((((bars.map Bar.close).drop (i + 1 - 20)).take 20).sum / 20) := by
  rw [sma_20, closeCol_eq, cell_rolling_total (by omega) (by simpa using hi)]

theorem cell_sma_50 (hi : i < bars.length) :
    cellAt (sma_50 bars) i =
      if i + 1 < 50 then none
      else some ((((bars.map Bar.close).drop (i + 1 - 50)).take 50).sum / 50) := by
  rw [sma_50, closeCol_eq, cell_rolling_total (by omega) (by simpa using hi)]

theorem cell_bb_middle (hi : i < bars.length) :
    cellAt (bb_middle bars) i =
      if i + 1 < 20 then none
      else some ((((bars.map Bar.close).drop (i + 1 - 20)).take 20).sum / 20) := by
  rw [bb_middle, closeCol_eq, cell_rolling_total (by omega) (by simpa using hi)]

theorem cell_bb_std_isSome (hi : i < bars.length) (h19 : 19 ≤ i) :
    (cellAt (bb_std bars sq) i).isSome := by
  rw [bb_std, closeCol_eq, cell_rolling_total (by omega) (by simpa using hi)]
  have : ¬ i + 1 < 20 := by omega
  simp [this]

theorem cell_ema_12_iff (hi : i < bars.length) :
    (cellAt (ema_12 bars) i).isSome = true ↔ 12 ≤ i + 1 := by
  rw [ema_12]
  exact cell_ewm_total_isSome (by omega) (by simpa using hi) closeCol_all_isSome

theorem cell_ema_26_iff (hi : i < bars.length) :
    (cellAt (ema_26 bars) i).isSome = true ↔ 26 ≤ i + 1 := by
  rw [ema_26]
  exact cell_ewm_total_isSome (by omega) (by simpa using hi) closeCol_all_isSome

theorem cell_macd_iff (hi : i < bars.length) :
    (cellAt (macd bars) i).isSome = true ↔ 25 ≤ i := by
  rw [macd, cell_zipO (by simpa using hi) (by simpa using hi), match2_isSome]
  rw [cell_ema_12_iff hi, cell_ema_26_iff hi]
  omega

theorem cell_macd_signal_iff (hi : i < bars.length) :
    (cellAt (macd_signal bars) i).isSome = true ↔ 33 ≤ i := by
  rw [macd_signal]
  have h := @cell_ewm_from_isSome (2 / 10) 9 25 (macd bars) i
    (by omega) (by simpa using hi) ?_
  · rw [ewmCol] at h
    rw [ewmCol, h]
    omega
  · intro j hj
    have hj' : j < bars.length := by simpa using hj
    rw [← cellAt_eq_getElem hj]
    exact cell_macd_iff hj'

theorem cell_macd_histogram_isSome (hi : i < bars.length) (h33 : 33 ≤ i) :
    (cellAt (macd_histogram bars) i).isSome := by
  rw [macd_histogram, cell_zipO (by simpa using hi) (by simpa using hi), match2_isSome]
  exact ⟨(cell_macd_iff hi).mpr (by omega), (cell_macd_signal_iff hi).mpr h33⟩

theorem cell_emaUp_iff (hi : i < bars.length) :
    (cellAt (emaUp bars) i).isSome = true ↔ 14 ≤ i + 1 := by
  rw [emaUp]
  exact cell_ewm_total_isSome (by omega) (by simpa using hi) upDir_all_isSome

theorem cell_emaDn_iff (hi : i < bars.length) :
    (cellAt (emaDn bars) i).isSome = true ↔ 14 ≤ i + 1 := by
  rw [emaDn]
  exact cell_ewm_total_isSome (by omega) (by simpa using hi) dnDir_all_isSome

theorem cell_rsi_isSome (hi : i < bars.length) (h13 : 13 ≤ i) :
    (cellAt (rsi bars) i).isSome := by
  rw [rsi, cell_zipO (by simpa using hi) (by simpa using hi), match2_isSome]
  exact ⟨(cell_emaUp_iff hi).mpr (by omega), (cell_emaDn_iff hi).mpr (by omega)⟩

theorem cell_lowMin (hi : i < bars.length) :
    cellAt (lowMin bars) i =
      if i + 1 < 14 then none
      else some (((((bars.map Bar.low).drop (i + 1 - 14)).take 14).min?).getD 0) := by
  rw [lowMin, lowCol_eq, cell_rolling_total (by omega) (by simpa using hi)]

theorem cell_highMax (hi : i < bars.length) :
    cellAt (highMax bars) i =
      if i + 1 < 14 then none
      else some (((((bars.map Bar.high).drop (i + 1 - 14)).take 14).max?).getD 0) := by
  rw [highMax, highCol_eq, cell_rolling_total (by omega) (by simpa using hi)]

theorem cell_stoch_k_isSome (hi : i < bars.length) (h13 : 13 ≤ i)
    (hden : stochDenAt bars i ≠ 0) :
    (cellAt (stoch_k bars) i).isSome := by
  have hmn := @cell_lowMin bars i hi
  have hmx := @cell_highMax bars i hi
  have h14 : ¬ i + 1 < 14 := by omega
  rw [if_neg h14] at hmn hmx
  rw [stoch_k, cell_zip3Ob (by simpa using hi) (by simpa using hi) (by simpa using hi),
    cell_closeCol hi, hmn, hmx]
  rw [stochDenAt, hmn, hmx] at hden
  simp only [hden, if_false]
  rfl

theorem cell_stoch_d_isSome (hi : i < bars.length) (h49 : 49 ≤ i)
    (hden : ∀ j, 47 ≤ j → j < bars.length → stochDenAt bars j ≠ 0) :
    (cellAt (stoch_d bars) i).isSome := by
  have hi' : i < (stoch_k bars).length := by simp only [length_stoch_k]; omega
  rw [stoch_d, cellAt, rollingCol_getElem (by omega) hi']
  have h3 : ¬ i + 1 < 3 := by omega
  simp only [h3, if_false, Option.getD_some]
  have hseq : (seqOpt (((stoch_k bars).drop (i + 1 - 3)).take 3)).isSome := by
    rw [seqOpt_isSome]
    intro o ho
    obtain ⟨t, ht, rfl⟩ := List.mem_iff_getElem.mp ho
    have ht3 : t < 3 := by
      have := List.length_take 3 ((stoch_k bars).drop (i + 1 - 3))
      omega
    have hidx : i + 1 - 3 + t < (stoch_k bars).length := by
      simp only [length_stoch_k]
      omega
    rw [List.getElem_take, List.getElem_drop]
    rw [← cellAt_eq_getElem hidx]
    have hidx' : i + 1 - 3 + t < bars.length := by
      simp only [length_stoch_k] at hidx
      omega
    exact cell_stoch_k_isSome hidx' (by omega) (hden _ (by omega) hidx')
  obtain ⟨vs, hvs⟩ := Option.isSome_iff_exists.mp hseq
  rw [hvs]
  rfl

theorem cell_trCol_isSome (hi : i < bars.length) :
    (cellAt (trCol bars) i).isSome := by
  have hh : i < (highCol bars).length := by simp only [length_highCol]; omega
  have hl : i < (lowCol bars).length := by simp only [length_lowCol]; omega
  have hs : i < (shiftF 1 (closeCol bars)).length := by
    simp only [length_shiftF, length_closeCol]
    omega
  have hsc : i < (closeCol bars).length := by simp only [length_closeCol]; omega
  rw [trCol, cellAt, List.getElem?_zipWith, cell_zipPair hh hl,
    List.getElem?_eq_getElem hs]
  rw [cell_highCol hi, cell_lowCol hi]
  rw [← cellAt_eq_getElem hs, cell_shiftF hsc]
  by_cases h0 : i < 1
  · simp [h0]
  · have h1 : i - 1 < bars.length := by omega
    simp only [h0, if_false, cell_closeCol h1]
    simp

theorem trCol_all_isSome : ∀ o ∈ trCol bars, o.isSome := by
  intro o ho
  obtain ⟨j, hj, rfl⟩ := List.mem_iff_getElem.mp ho
  have hj' : j < bars.length := by
    have := length_trCol bars
    omega
  rw [← cellAt_eq_getElem hj]
  exact cell_trCol_isSome hj'

theorem cell_atr_isSome (hi : i < bars.length) :
    (cellAt (atr bars) i).isSome := by
  have hi' : i < (trCol bars).length := by simpa using hi
  obtain ⟨v, hv⟩ := atrGo_getElem_isSome trCol_all_isSome 0 none 0 hi'
  rw [atr, cellAt, hv]
  rfl

theorem cell_price_change_isSome (hi : i < bars.length) (h1 : 1 ≤ i)
    (hpos : ∀ b ∈ bars, 0 < b.close) :
    (cellAt (price_change bars) i).isSome := by
  have hc : i < (closeCol bars).length := by simp only [length_closeCol]; omega
  have hs : i < (shiftF 1 (closeCol bars)).length := by
    simp only [length_shiftF, length_closeCol]
    omega
  rw [price_change, cell_zipOb hc hs]
  rw [cell_closeCol hi, cell_shiftF hc]
  have h0 : ¬ i < 1 := by omega
  have h1' : i - 1 < bars.length := by omega
  simp only [h0, if_false, cell_closeCol h1']
  have hcp : (0 : ℚ) < bars[i - 1].close := hpos _ (List.getElem_mem h1')
  simp [oDiv, ne_of_gt hcp]

theorem cell_high_low_ratio_isSome (hi : i < bars.length)
    (hpos : ∀ b ∈ bars, 0 < b.close) :
    (cellAt (high_low_ratio bars) i).isSome := by
  have hh : i < (highCol bars).length := by simp only [length_highCol]; omega
  have hl : i < (lowCol bars).length := by simp only [length_lowCol]; omega
  have hc : i < (closeCol bars).length := by simp only [length_closeCol]; omega
  rw [high_low_ratio, cell_zip3Ob hh hl hc,
    cell_highCol hi, cell_lowCol hi, cell_closeCol hi]
  have hcpos : (0 : ℚ) < bars[i].close := hpos _ (List.getElem_mem hi)
  simp [oDiv, ne_of_gt hcpos]

theorem cell_open_close_ratio_isSome (hi : i < bars.length)
    (hpos : ∀ b ∈ bars, 0 < b.open_) :
    (cellAt (open_close_ratio bars) i).isSome := by
  have ho : i < (openCol bars).length := by simp only [length_openCol]; omega
  have hc : i < (closeCol bars).length := by simp only [length_closeCol]; omega
  rw [open_close_ratio, cell_zipOb ho hc, cell_openCol hi, cell_closeCol hi]
  have hopos : (0 : ℚ) < bars[i].open_ := hpos _ (List.getElem_mem hi)
  simp [oDiv, ne_of_gt hopos]

theorem cell_price_above_sma20_isSome (hi : i < bars.length) :
    (cellAt (price_above_sma20 bars) i).isSome := by
  have hc : i < (closeCol bars).length := by simp only [length_closeCol]; omega
  have h2 : i < (sma_20 bars).length := by simp only [length_sma_20]; omega
  rw [price_above_sma20, cellAt, List.getElem?_zipWith,
    List.getElem?_eq_getElem hc, List.getElem?_eq_getElem h2]
  have hcc : (closeCol bars)[i] = some bars[i].close := by
    rw [← cellAt_eq_getElem hc]
    exact cell_closeCol hi
  rw [hcc]
  simp

theorem cell_price_above_sma50_isSome (hi : i < bars.length) :
    (cellAt (price_above_sma50 bars) i).isSome := by
  have hc : i < (closeCol bars).length := by simp only [length_closeCol]; omega
  have h2 : i < (sma_50 bars).length := by simp only [length_sma_50]; omega
  rw [price_above_sma50, cellAt, List.getElem?_zipWith,
    List.getElem?_eq_getElem hc, List.getElem?_eq_getElem h2]
  have hcc : (closeCol bars)[i] = some bars[i].close := by
    rw [← cellAt_eq_getElem hc]
    exact cell_closeCol hi
  rw [hcc]
  simp

theorem cell_sma20_above_sma50_isSome (hi : i < bars.length) :
    (cellAt (sma20_above_sma50 bars) i).isSome := by
  have hc : i < (closeCol bars).length := by simp only [length_closeCol]; omega
  have h2 : i < (zipPair (sma_20 bars) (sma_50 bars)).length := by
    simp only [length_zipPair, length_sma_20, length_sma_50]
    omega
  rw [sma20_above_sma50, cellAt, List.getElem?_zipWith,
    List.getElem?_eq_getElem hc, List.getElem?_eq_getElem h2]
  have hcc : (closeCol bars)[i] = some bars[i].close := by
    rw [← cellAt_eq_getElem hc]
    exact cell_closeCol hi
  rw [hcc]
  simp

/-- The mean over a complete window of positive closes is positive. -/
theorem window_mean_pos {a w : Nat} (hw : 1 ≤ w) (ha : a < bars.length)
    (hpos : ∀ b ∈ bars, 0 < b.close) :
    0 < (((bars.map Bar.close).drop a).take w).sum / (w : ℚ) := by
  apply div_pos
  · apply List.sum_pos
    · intro x hx
      have hx2 : x ∈ bars.map Bar.close :=
        List.mem_of_mem_drop (List.mem_of_mem_take hx)
      obtain ⟨b, hb, rfl⟩ := List.mem_map.mp hx2
      exact hpos b hb
    · have hlen : (((bars.map Bar.close).drop a).take w).length = min w (bars.length - a) := by
        simp
      intro hempty
      rw [hempty] at hlen
      simp only [List.length_nil] at hlen
      omega
  · exact_mod_cast Nat.lt_of_lt_of_le Nat.zero_lt_one hw

theorem cell_bb_upper_isSome (hi : i < bars.length) (h19 : 19 ≤ i) :
    (cellAt (bb_upper bars sq) i).isSome := by
  have hm : i < (bb_middle bars).length := by simp only [length_bb_middle]; omega
  have hstd : i < (bb_std bars sq).length := by simp only [length_bb_std]; omega
  rw [bb_upper, cell_zipO hm hstd, match2_isSome]
  constructor
  · rw [cell_bb_middle hi]
    have : ¬ i + 1 < 20 := by omega
    simp [this]
  · exact cell_bb_std_isSome hi h19

theorem cell_bb_lower_isSome (hi : i < bars.length) (h19 : 19 ≤ i) :
    (cellAt (bb_lower bars sq) i).isSome := by
  have hm : i < (bb_middle bars).length := by simp only [length_bb_middle]; omega
  have hstd : i < (bb_std bars sq).length := by simp only [length_bb_std]; omega
  rw [bb_lower, cell_zipO hm hstd, match2_isSome]
  constructor
  · rw [cell_bb_middle hi]
    have : ¬ i + 1 < 20 := by omega
    simp [this]
  · exact cell_bb_std_isSome hi h19

theorem cell_bb_width_isSome (hi : i < bars.length) (h19 : 19 ≤ i)
    (hpos : ∀ b ∈ bars, 0 < b.close) :
    (cellAt (bb_width bars sq) i).isSome := by
  have hu' : i < (bb_upper bars sq).length := by simp only [length_bb_upper]; omega
  have hl' : i < (bb_lower bars sq).length := by simp only [length_bb_lower]; omega
  have hm' : i < (bb_middle bars).length := by simp only [length_bb_middle]; omega
  have hnum : i < (zipO (fun u l => u - l) (bb_upper bars sq) (bb_lower bars sq)).length := by
    simp only [length_zipO, length_bb_upper, length_bb_lower]
    omega
  rw [bb_width, cell_zipOb hnum hm']
  have h20 : ¬ i + 1 < 20 := by omega
  obtain ⟨u, hu⟩ := Option.isSome_iff_exists.mp (@cell_bb_upper_isSome bars sq i hi h19)
  obtain ⟨l, hl⟩ := Option.isSome_iff_exists.mp (@cell_bb_lower_isSome bars sq i hi h19)
  rw [cell_zipO hu' hl', hu, hl, cell_bb_middle hi]
  simp only [h20, if_false]
  have hmean : 0 < (((bars.map Bar.close).drop (i - 19)).take 20).sum / (20 : ℚ) :=
    window_mean_pos (by omega) (by omega) hpos
  have hsum : ¬ (((bars.map Bar.close).drop (i - 19)).take 20).sum = 0 := by
    intro h0
    rw [h0] at hmean
    simp at hmean
  have harith : i + 1 - 20 = i - 19 := by omega
  rw [harith]
  simp [oDiv, hsum]

end ColCells

/-! Characterization of the prepared frame. -/

section Prepared

variable {bars : List Bar} {sq : ℚ → ℚ}

theorem colList_length_ge : ∀ c ∈ colList bars sq, bars.length ≤ c.length := by
  intro c hc
  simp only [colList, List.mem_cons, List.not_mem_nil, or_false] at hc
  rcases hc with rfl | rfl | rfl | rfl | rfl | rfl | rfl | rfl | rfl | rfl | rfl | rfl | rfl |
    rfl | rfl | rfl | rfl | rfl | rfl | rfl | rfl | rfl | rfl | rfl | rfl | rfl | rfl | rfl |
    rfl | rfl | rfl <;>
    simp only [length_openCol, length_highCol, length_lowCol, length_closeCol, length_sma_20,
      length_sma_50, length_ema_12, length_ema_26, length_bb_upper, length_bb_middle,
      length_bb_lower, length_bb_width, length_rsi, length_macd, length_macd_signal,
      length_macd_histogram, length_stoch_k, length_stoch_d, length_atr, length_price_change,
      length_high_low_ratio, length_open_close_ratio, length_price_above_sma20,
      length_price_above_sma50, length_sma20_above_sma50, length_shiftF, le_refl] <;>
    omega

theorem rowCells_length : (rowCells bars sq).length = bars.length := by
  rw [rowCells, transpose_length _ _ (by simpa using @colList_length_ge bars sq)]
  simp

theorem rowCells_getElem {i : Nat} (hi : i < bars.length) :
    (rowCells bars sq)[i]? = some ((colList bars sq).map (fun c => cellAt c i)) := by
  have hinit : i < (bars.map (fun _ => ([] : List (Option ℚ)))).length := by simpa using hi
  rw [rowCells, transpose_getElem _ _ hinit (by simpa using @colList_length_ge bars sq)]
  rw [List.getElem?_map, List.getElem?_eq_getElem hi]
  simp [List.map_eq_foldr]

theorem row_all_isSome {i : Nat} (hi : i < bars.length) (h49 : 49 ≤ i)
    (hpos : ∀ b ∈ bars, 0 < b.close) (hpos2 : ∀ b ∈ bars, 0 < b.open_)
    (hden : ∀ j, 47 ≤ j → j < bars.length → stochDenAt bars j ≠ 0) :
    ∀ o ∈ (colList bars sq).map (fun c => cellAt c i), o.isSome := by
  have hc : i < (closeCol bars).length := by simp only [length_closeCol]; omega
  intro o ho
  obtain ⟨c, hcmem, rfl⟩ := List.mem_map.mp ho
  simp only [colList, List.mem_cons, List.not_mem_nil, or_false] at hcmem
  rcases hcmem with rfl | rfl | rfl | rfl | rfl | rfl | rfl | rfl | rfl | rfl | rfl | rfl | rfl |
    rfl | rfl | rfl | rfl | rfl | rfl | rfl | rfl | rfl | rfl | rfl | rfl | rfl | rfl | rfl |
    rfl | rfl | rfl
  · rw [cell_openCol hi]; rfl
  · rw [cell_highCol hi]; rfl
  · rw [cell_lowCol hi]; rfl
  · rw [cell_closeCol hi]; rfl
  · rw [cell_sma_20 hi]
    have hw : ¬ i + 1 < 20 := by omega
    simp [hw]
  · rw [cell_sma_50 hi]
    have hw : ¬ i + 1 < 50 := by omega
    simp [hw]
  · exact (cell_ema_12_iff hi).mpr (by omega)
  · exact (cell_ema_26_iff hi).mpr (by omega)
  · exact cell_bb_upper_isSome hi (by omega)
  · rw [cell_bb_middle hi]
    have hw : ¬ i + 1 < 20 := by omega
    simp [hw]
  · exact cell_bb_lower_isSome hi (by omega)
  · exact cell_bb_width_isSome hi (by omega) hpos
  · exact cell_rsi_isSome hi (by omega)
  · exact (cell_macd_iff hi).mpr (by omega)
  · exact (cell_macd_signal_iff hi).mpr (by omega)
  · exact cell_macd_histogram_isSome hi (by omega)
  · exact cell_stoch_k_isSome hi (by omega) (hden i (by omega) hi)
  · exact cell_stoch_d_isSome hi h49 hden
  · exact cell_atr_isSome hi
  · exact cell_price_change_isSome hi (by omega) hpos
  · exact cell_high_low_ratio_isSome hi hpos
  · exact cell_open_close_ratio_isSome hi hpos2
  · exact cell_price_above_sma20_isSome hi
  · exact cell_price_above_sma50_isSome hi
  · exact cell_sma20_above_sma50_isSome hi
  · rw [cell_shiftF hc]
    have h1 : ¬ i < 1 := by omega
    have h1' : i - 1 < bars.length := by omega
    simp only [h1, if_false, cell_closeCol h1']
    rfl
  · rw [cell_shiftF hc]
    have h2 : ¬ i < 2 := by omega
    have h2' : i - 2 < bars.length := by omega
    simp only [h2, if_false, cell_closeCol h2']
    rfl
  · rw [cell_shiftF (by simp only [length_rsi]; omega)]
    have h1 : ¬ i < 1 := by omega
    simp only [h1, if_false]
    exact cell_rsi_isSome (by omega) (by omega)
  · rw [cell_shiftF (by simp only [length_rsi]; omega)]
    have h2 : ¬ i < 2 := by omega
    simp only [h2, if_false]
    exact cell_rsi_isSome (by omega) (by omega)
  · rw [cell_shiftF (by simp only [length_macd]; omega)]
    have h1 : ¬ i < 1 := by omega
    simp only [h1, if_false]
    exact (cell_macd_iff (by omega)).mpr (by omega)
  · rw [cell_shiftF (by simp only [length_macd]; omega)]
    have h2 : ¬ i < 2 := by omega
    simp only [h2, if_false]
    exact (cell_macd_iff (by omega)).mpr (by omega)

theorem row_fail {i : Nat} (hi : i < bars.length) (h49 : i < 49) :
    seqOpt ((colList bars sq).map (fun c => cellAt c i)) = none := by
  apply seqOpt_eq_none
  have h5 : cellAt (sma_50 bars) i = none := by
    rw [cell_sma_50 hi]
    have : i + 1 < 50 := by omega
    simp [this]
  rw [← h5]
  apply List.mem_map_of_mem
  simp [colList]

theorem filterMap_fst_of_all_some :
    ∀ (l : List (Nat × List (Option ℚ))), (∀ p ∈ l, (seqOpt p.2).isSome) →
      ((l.filterMap (fun p => (seqOpt p.2).map (fun vals => (p.1, mkRowFrom vals)))).map
        Prod.fst) = l.map Prod.fst := by
  intro l
  induction l with
  | nil => intro _; rfl
  | cons p rest ih =>
    intro h
    obtain ⟨vals, hvals⟩ := Option.isSome_iff_exists.mp (h p (List.mem_cons_self ..))
    rw [List.filterMap_cons, hvals]
    simp only [Option.map_some', List.map_cons]
    rw [ih (fun q hq => h q (List.mem_cons_of_mem _ hq))]

/-- Kept indices of the prepared frame under the nondegeneracy
preconditions: exactly the bar indices from 49 on, in order. -/
theorem prepare_features_idx
    (hpos : ∀ b ∈ bars, 0 < b.close) (hpos2 : ∀ b ∈ bars, 0 < b.open_)
    (hden : ∀ j, 47 ≤ j → j < bars.length → stochDenAt bars j ≠ 0) :
    (prepare_features bars sq).map Prod.fst = List.range' 49 (bars.length - 49) := by
  rcases le_or_lt bars.length 49 with hL | hL
  · have hnil : prepare_features bars sq = [] := by
      rw [prepare_features, List.filterMap_eq_nil_iff]
      intro p hp
      have hp2 := List.mem_enum_iff_getElem?.mp hp
      have hp1 : p.1 < bars.length := by
        by_contra hge
        rw [List.getElem?_eq_none (by rw [rowCells_length]; omega)] at hp2
        exact Option.noConfusion hp2
      rw [rowCells_getElem hp1] at hp2
      have hrow : p.2 = (colList bars sq).map (fun c => cellAt c p.1) :=
        (Option.some.inj hp2).symm
      rw [hrow, row_fail hp1 (by omega)]
      rfl
    rw [hnil]
    have h0 : bars.length - 49 = 0 := by omega
    simp [h0]
  · have hlen49 : ((rowCells bars sq).take 49).length = 49 := by
      rw [List.length_take, rowCells_length]
      omega
    have hsplit : (rowCells bars sq).enum
        = ((rowCells bars sq).take 49).enum
          ++ List.enumFrom 49 ((rowCells bars sq).drop 49) := by
      conv_lhs => rw [← List.take_append_drop 49 (rowCells bars sq)]
      rw [List.enum_append, hlen49]
    have hpart1 : ∀ p ∈ ((rowCells bars sq).take 49).enum,
        (seqOpt p.2).map (fun vals => (p.1, mkRowFrom vals)) = none := by
      intro p hp
      have hp2 := List.mem_enum_iff_getElem?.mp hp
      have hp1 : p.1 < 49 := by
        by_contra hge
        rw [List.getElem?_eq_none (by omega)] at hp2
        exact Option.noConfusion hp2
      rw [List.getElem?_take, if_pos hp1, rowCells_getElem (by omega)] at hp2
      have hrow : p.2 = (colList bars sq).map (fun c => cellAt c p.1) :=
        (Option.some.inj hp2).symm
      rw [hrow, row_fail (by omega) hp1]
      rfl
    have hpart2 : ∀ p ∈ List.enumFrom 49 ((rowCells bars sq).drop 49),
        (seqOpt p.2).isSome := by
      intro p hp
      obtain ⟨p1, p2⟩ := p
      obtain ⟨hge, hlt, hcell⟩ := List.mem_enumFrom hp
      have hlen2 : ((rowCells bars sq).drop 49).length = bars.length - 49 := by
        rw [List.length_drop, rowCells_length]
      have hp1lt : p1 < bars.length := by omega
      have hidx : p1 - 49 < (rowCells bars sq).length := by rw [rowCells_length]; omega
      have hb1 : p1 - 49 < ((rowCells bars sq).drop 49).length := by omega
      have hb2 : 49 + (p1 - 49) < (rowCells bars sq).length := by
        rw [rowCells_length]
        omega
      have hgd : ((rowCells bars sq).drop 49)[p1 - 49]
          = (rowCells bars sq)[49 + (p1 - 49)] := by
        rw [List.getElem_drop]
      have h49p : 49 + (p1 - 49) = p1 := by omega
      have hp2get : (rowCells bars sq)[p1]? = some ((colList bars sq).map (fun c => cellAt c p1)) :=
        rowCells_getElem hp1lt
      rw [List.getElem?_eq_getElem (by rw [rowCells_length]; omega)] at hp2get
      have hp2eq : p2 = (colList bars sq).map (fun c => cellAt c p1) := by
        rw [hcell, hgd]
        simp only [h49p]
        exact Option.some.inj hp2get
      rw [hp2eq, seqOpt_isSome]
      exact row_all_isSome hp1lt (by omega) hpos hpos2 hden
    rw [prepare_features, hsplit, List.filterMap_append]
    rw [List.filterMap_eq_nil_iff.mpr hpart1, List.nil_append]
    rw [filterMap_fst_of_all_some _ hpart2]
    rw [List.enumFrom_map_fst, List.length_drop, rowCells_length]

/-- Length of the prepared frame under the preconditions. -/
theorem prepare_features_length
    (hpos : ∀ b ∈ bars, 0 < b.close) (hpos2 : ∀ b ∈ bars, 0 < b.open_)
    (hden : ∀ j, 47 ≤ j → j < bars.length → stochDenAt bars j ≠ 0) :
    (prepare_features bars sq).length = bars.length - 49 := by
  have h := congrArg List.length (@prepare_features_idx bars sq hpos hpos2 hden)
  simpa [List.length_range'] using h

/-- Unconditionally, the rows of the sma_50 warm-up are always dropped, so
the prepared frame never has more than length - 49 rows. -/
theorem prepare_features_length_le :
    (prepare_features bars sq).length ≤ bars.length - 49 := by
  have hlen49 : ((rowCells bars sq).take 49).length = min 49 bars.length := by
    rw [List.length_take, rowCells_length]
  have hsplit : (rowCells bars sq).enum
      = ((rowCells bars sq).take 49).enum
        ++ List.enumFrom (min 49 bars.length) ((rowCells bars sq).drop 49) := by
    conv_lhs => rw [← List.take_append_drop 49 (rowCells bars sq)]
    rw [List.enum_append, hlen49]
  have hpart1 : ((rowCells bars sq).take 49).enum.filterMap
      (fun p => (seqOpt p.2).map (fun vals => (p.1, mkRowFrom vals))) = [] := by
    rw [List.filterMap_eq_nil_iff]
    intro p hp
    have hp2 := List.mem_enum_iff_getElem?.mp hp
    have hp1 : p.1 < min 49 bars.length := by
      by_contra hge
      rw [List.getElem?_eq_none (by omega)] at hp2
      exact Option.noConfusion hp2
    rw [List.getElem?_take, if_pos (by omega), rowCells_getElem (by omega)] at hp2
    have hrow : p.2 = (colList bars sq).map (fun c => cellAt c p.1) :=
      (Option.some.inj hp2).symm
    rw [hrow, row_fail (by omega) (by omega)]
    rfl
  rw [prepare_features, hsplit, List.filterMap_append, hpart1, List.nil_append]
  have h1 : (List.enumFrom (min 49 bars.length) ((rowCells bars sq).drop 49)).length
      = bars.length - 49 := by
    rw [List.enumFrom_length, List.length_drop, rowCells_length]
  calc (List.filterMap _ (List.enumFrom (min 49 bars.length)
          ((rowCells bars sq).drop 49))).length
      ≤ (List.enumFrom (min 49 bars.length) ((rowCells bars sq).drop 49)).length :=
        List.length_filterMap_le _ _
    _ = bars.length - 49 := h1

end Prepared

/-! Characterization of the label generator. -/

section Labels

variable {la : Nat} {θ : ℚ} {closes : List ℚ} {j : Nat}

theorem futureReturn_eq_none (h : closes.length ≤ j + la) :
    futureReturn closes la j = none := by
  rw [futureReturn, List.getElem?_eq_none h]

theorem futureReturn_eq {cf cj : ℚ} (h1 : closes[j + la]? = some cf)
    (h2 : closes[j]? = some cj) (hcj : cj ≠ 0) :
    futureReturn closes la j = some (cf / cj - 1) := by
  rw [futureReturn, h1, h2]
  simp [oDiv, hcj]

theorem shiftedCloses_length : (shiftedCloses la closes).length = max closes.length la := by
  simp only [shiftedCloses, List.length_append, List.length_map, List.length_drop,
    List.length_replicate]
  omega

theorem shiftedCloses_getElem (hj : j < closes.length) :
    (shiftedCloses la closes)[j]? = some (closes[j + la]?) := by
  rw [Nat.add_comm j la]
  simp only [shiftedCloses, List.getElem?_append, List.length_map, List.length_drop]
  by_cases h : j < closes.length - la
  · have hlt : la + j < closes.length := by omega
    rw [if_pos h, List.getElem?_map, List.getElem?_drop, List.getElem?_eq_getElem hlt]
    rfl
  · have hrep : j - (closes.length - la) < la := by omega
    have hout : closes.length ≤ la + j := by omega
    rw [if_neg h, List.getElem?_replicate, if_pos hrep, List.getElem?_eq_none hout]

theorem create_labels_length :
    (create_labels la θ closes).length = closes.length := by
  simp only [create_labels, List.length_map, List.length_zip, shiftedCloses_length]
  omega

theorem create_labels_getElem (hj : j < closes.length) :
    (create_labels la θ closes)[j]?
      = some (futureReturn closes la j, labelOf (futureReturn closes la j) θ) := by
  have hs : j < (shiftedCloses la closes).length := by
    rw [shiftedCloses_length]
    omega
  rw [create_labels, List.getElem?_map, List.zip_eq_zipWith, List.getElem?_zipWith,
    List.getElem?_eq_getElem hj, shiftedCloses_getElem hj]
  simp only [Option.map_some']
  rw [futureReturn, List.getElem?_eq_getElem hj]
  cases closes[j + la]? with
  | none => rfl
  | some cf => rfl

/-- The labeled frame keeps every row of its input. -/
theorem labelRows_length (rows : List (Nat × FeatRow)) :
    (labelRows la θ rows).length = rows.length := by
  simp only [labelRows, List.length_map, List.length_zip, create_labels_length,
    List.length_map]
  omega

theorem labelRows_getElem {rows : List (Nat × FeatRow)} (hj : j < rows.length) :
    (labelRows la θ rows)[j]?
      = some ⟨rows[j].1, rows[j].2,
          futureReturn (rows.map (fun p => p.2.close)) la j,
          labelOf (futureReturn (rows.map (fun p => p.2.close)) la j) θ⟩ := by
  have hc : j < (rows.map (fun p => p.2.close)).length := by
    simp only [List.length_map]
    omega
  have hl : j < (create_labels la θ (rows.map (fun p => p.2.close))).length := by
    rw [create_labels_length]
    simpa using hj
  rw [labelRows, List.getElem?_map, List.zip_eq_zipWith, List.getElem?_zipWith,
    List.getElem?_eq_getElem hj, create_labels_getElem hc]
  rfl

/-- The dropna after labeling keeps at most all but the trailing
`lookahead` rows. -/
theorem labelRows_filter_le (rows : List (Nat × FeatRow)) :
    ((labelRows la θ rows).filter (fun lr => lr.future_return.isSome)).length
      ≤ rows.length - la := by
  set n := rows.length with hn
  have hsplit : labelRows la θ rows
      = (labelRows la θ rows).take (n - la) ++ (labelRows la θ rows).drop (n - la) := by
    simp
  rw [hsplit, List.filter_append, List.length_append]
  have h1 : ((labelRows la θ rows).take (n - la)).length ≤ n - la := by
    rw [List.length_take]
    omega
  have h2 : ((labelRows la θ rows).drop (n - la)).filter
      (fun lr => lr.future_return.isSome) = [] := by
    rw [List.filter_eq_nil_iff]
    intro lr hlr
    obtain ⟨t, ht, rfl⟩ := List.mem_iff_getElem.mp hlr
    have hlen : (labelRows la θ rows).length = n := labelRows_length rows
    have hidx : n - la + t < n := by
      have := List.length_drop (n - la) (labelRows la θ rows)
      omega
    have hb2 : n - la + t < (labelRows la θ rows).length := by omega
    have hgd : ((labelRows la θ rows).drop (n - la))[t]
        = (labelRows la θ rows)[n - la + t] := List.getElem_drop ..
    rw [hgd]
    have hj : n - la + t < rows.length := by omega
    have := @labelRows_getElem la θ (n - la + t) rows hj
    rw [List.getElem?_eq_getElem (by omega : n - la + t < (labelRows la θ rows).length)] at this
    rw [Option.some.inj this]
    have hfr : futureReturn (rows.map (fun p => p.2.close)) la (n - la + t) = none := by
      apply futureReturn_eq_none
      simp only [List.length_map]
      omega
    simp [hfr]
  rw [h2]
  simp only [List.length_nil, Nat.add_zero]
  exact le_trans (List.length_filter_le _ _) h1

/-- The cleaned frame of train/backtest has at most length - 54 rows. -/
theorem cleanRows_length_le {bars : List Bar} {sq : ℚ → ℚ} :
    (cleanRows bars sq).length ≤ bars.length - 54 := by
  have h1 := @labelRows_filter_le 5 (1 / 1000) (prepare_features bars sq)
  have h2 := @prepare_features_length_le bars sq
  rw [cleanRows]
  omega

end Labels

/-! Concrete instantiations of the third-party parameters, used by
witnesses and counterexamples. -/

def unitFit : List (List ℚ) → List Int → Nat → Unit := fun _ _ _ => ()

def zeroScore : Unit → List (List ℚ) → List Int → ℚ := fun _ _ _ => 0

def idPerm : Nat → Nat → List Nat := fun _ n => List.range n

def buyPredict : Unit → List ℚ → Int := fun _ _ => 1

def buyProba : Unit → List ℚ → List ℚ := fun _ _ => [0, 0, 1]

def zeroPredict : Unit → List ℚ → Int := fun _ _ => 0

/-- A service state as produced by a successful training run. -/
def trainedState : ServiceState Unit :=
  ⟨some (), ⟨some (List.replicate 24 ((0 : ℚ), (1 : ℚ)))⟩, true, feature_columns_list⟩

/-- A feature row with close 100 and all other features 0. -/
def testFeatRow : FeatRow :=
  ⟨100, 0, 0, 0, 0, 0, 0, 0, 0, 0, 0, 0, 0, 0, 0, 0, 0, 0, 0, 0, 0, 0, 0, 0, 0⟩

/-- A labeled row for exercising the simulation step. -/
def testRow : LabRow := ⟨50, testFeatRow, some 0, 1⟩

section Claims

attribute [local semireducible] Rat.add Rat.sub Rat.mul Rat.inv

/-- C2: every signal constructed by the embedded generate_signal branch
carries risk_reward_ratio equal to the quotient
abs (take_profit - entry_price) / abs (entry_price - stop_loss), where a
zero denominator makes it undefined; and at ATR = 0 with a BUY prediction
the code still returns a signal whose risk/reward is the undefined 0/0
(the float NaN, modelled as none) — no DegenerateRatio error is raised
anywhere. -/
theorem c2_risk_reward :
    (∀ (p : Int) (proba : List ℚ) (c a rv mv : ℚ) (g : SignalData),
        mkSignalData p proba c a rv mv = some g →
        g.risk_reward_ratio
          = oDiv |g.take_profit - g.entry_price| |g.entry_price - g.stop_loss|)
    ∧ ((mkSignalData 1 [1/2, 1/4, 1/4] 100 0 50 0).map (fun g => g.risk_reward_ratio)
        = some none) := by
  constructor
  · intro p proba c a rv mv g hg
    rw [mkSignalData] at hg
    by_cases hp1 : p = 1
    · rw [if_pos hp1] at hg
      cases hconf : (if 2 < proba.length then proba[2]? else proba[1]?) with
      | none => rw [hconf] at hg; exact absurd hg (by simp)
      | some conf =>
        rw [hconf] at hg
        rw [← Option.some.inj hg]
    · rw [if_neg hp1] at hg
      by_cases hpm : p = -1
      · rw [if_pos hpm] at hg
        cases hconf : proba[0]? with
        | none => rw [hconf] at hg; exact absurd hg (by simp)
        | some conf =>
          rw [hconf] at hg
          rw [← Option.some.inj hg]
      · rw [if_neg hpm] at hg
        exact absurd hg (by simp)
  · decide

/-- C2 witness: a concrete BUY signal at close 100 and ATR 2 carries
risk/reward 6/4 = 3/2, matching the quotient of its own fields. -/
theorem c2_risk_reward_witness :
    (mkSignalData 1 [0, 0, 1] 100 2 50 0).map (fun g => g.risk_reward_ratio)
      = (mkSignalData 1 [0, 0, 1] 100 2 50 0).map
          (fun g => oDiv |g.take_profit - g.entry_price| |g.entry_price - g.stop_loss|) := by
  cases hg : mkSignalData 1 [0, 0, 1] 100 2 50 0 with
  | none => rfl
  | some g =>
    simp only [Option.map_some']
    rw [c2_risk_reward.1 1 [0, 0, 1] 100 2 50 0 g hg]

/-- C5 counterexample: on the six-element constant close column of the
spec example, create_labels with lookahead 5 returns six rows, not the one
row that dropping the trailing lookahead rows would leave. -/
theorem c5_counterexample :
    ¬ ((create_labels 5 (1/1000) [100, 100, 100, 100, 100, 100]).length
        = ([100, 100, 100, 100, 100, 100] : List ℚ).length - 5) := by
  decide

/-- C5 (amended): create_labels keeps every input row; the trailing
lookahead rows get an undefined future return and the default label HOLD
and are removed only by the dropna that follows in every caller; for
every earlier row with positive closes the label is BUY exactly above the
threshold, SELL exactly below its negation, and HOLD otherwise, so a
future return exactly equal to a nonnegative threshold is labeled HOLD. -/
theorem c5_create_labels (la : Nat) (θ : ℚ) (closes : List ℚ)
    (hpos : ∀ c ∈ closes, 0 < c) (hθ : 0 ≤ θ) :
    (create_labels la θ closes).length = closes.length
    ∧ (∀ j, closes.length - la ≤ j → j < closes.length →
        (create_labels la θ closes)[j]? = some (none, 0))
    ∧ ((create_labels la θ closes).filter (fun q => q.1.isSome)
        = (create_labels la θ closes).take (closes.length - la))
    ∧ (∀ j (cf cj : ℚ), closes[j + la]? = some cf → closes[j]? = some cj →
        (create_labels la θ closes)[j]?
          = some (some (cf / cj - 1),
              if θ < cf / cj - 1 then 1 else if cf / cj - 1 < -θ then -1 else 0))
    ∧ (∀ j, futureReturn closes la j = some θ →
        ((create_labels la θ closes)[j]?).map Prod.snd = some 0) := by
  have hget : ∀ j, j < closes.length → ∃ cj, closes[j]? = some cj ∧ 0 < cj := by
    intro j hj
    refine ⟨closes[j], List.getElem?_eq_getElem hj, hpos _ (List.getElem_mem hj)⟩
  refine ⟨create_labels_length, ?_, ?_, ?_, ?_⟩
  · intro j hge hlt
    rw [create_labels_getElem hlt]
    have hfr : futureReturn closes la j = none := futureReturn_eq_none (by omega)
    rw [hfr]
    rfl
  · have hsplit : create_labels la θ closes
        = (create_labels la θ closes).take (closes.length - la)
          ++ (create_labels la θ closes).drop (closes.length - la) := by
      simp
    conv_lhs => rw [hsplit]
    rw [List.filter_append]
    have hlen : (create_labels la θ closes).length = closes.length := create_labels_length
    have h1 : ((create_labels la θ closes).take (closes.length - la)).filter
        (fun q => q.1.isSome) = (create_labels la θ closes).take (closes.length - la) := by
      rw [List.filter_eq_self]
      intro q hq
      obtain ⟨t, ht, rfl⟩ := List.mem_iff_getElem.mp hq
      have ht2 : t < closes.length - la := by
        have := List.length_take (closes.length - la) (create_labels la θ closes)
        omega
      have htlt : t < closes.length := by omega
      have hb : t < (create_labels la θ closes).length := by omega
      have hgt : ((create_labels la θ closes).take (closes.length - la))[t]
          = (create_labels la θ closes)[t] := List.getElem_take ..
      rw [hgt]
      obtain ⟨cj, hcj, hcjpos⟩ := hget t htlt
      have hcf : ∃ cf, closes[t + la]? = some cf := by
        have : t + la < closes.length := by omega
        exact ⟨closes[t + la], List.getElem?_eq_getElem this⟩
      obtain ⟨cf, hcf⟩ := hcf
      have := @create_labels_getElem la θ closes t htlt
      rw [List.getElem?_eq_getElem (by omega : t < (create_labels la θ closes).length)] at this
      rw [Option.some.inj this]
      rw [futureReturn_eq hcf hcj (ne_of_gt hcjpos)]
      rfl
    have h2 : ((create_labels la θ closes).drop (closes.length - la)).filter
        (fun q => q.1.isSome) = [] := by
      rw [List.filter_eq_nil_iff]
      intro q hq
      obtain ⟨t, ht, rfl⟩ := List.mem_iff_getElem.mp hq
      have hidx : closes.length - la + t < closes.length := by
        have := List.length_drop (closes.length - la) (create_labels la θ closes)
        omega
      have hb : closes.length - la + t < (create_labels la θ closes).length := by omega
      have hgt : ((create_labels la θ closes).drop (closes.length - la))[t]
          = (create_labels la θ closes)[closes.length - la + t] :=
        List.getElem_drop ..
      rw [hgt]
      have := @create_labels_getElem la θ closes (closes.length - la + t) hidx
      rw [List.getElem?_eq_getElem
        (by omega : closes.length - la + t < (create_labels la θ closes).length)] at this
      rw [Option.some.inj this]
      rw [futureReturn_eq_none (by omega)]
      simp
    rw [h1, h2, List.append_nil]
  · intro j cf cj hcf hcj
    have hjlt : j < closes.length := by
      by_contra hge
      rw [List.getElem?_eq_none (by omega)] at hcj
      exact Option.noConfusion hcj
    obtain ⟨cj2, hcj2, hpos2⟩ := hget j hjlt
    have : cj2 = cj := by
      rw [hcj] at hcj2
      exact (Option.some.inj hcj2).symm
    subst this
    rw [create_labels_getElem hjlt, futureReturn_eq hcf hcj (ne_of_gt hpos2)]
    rfl
  · intro j hfr
    have hjlt : j < closes.length := by
      by_contra hge
      rw [futureReturn_eq_none (by omega)] at hfr
      exact Option.noConfusion hfr
    rw [create_labels_getElem hjlt, hfr]
    simp only [Option.map_some']
    rw [labelOf]
    have h1 : ¬ θ < θ := lt_irrefl θ
    have h2 : ¬ θ < -θ := by
      intro h
      have : θ < 0 := by linarith
      linarith
    simp [h1, h2]

/-- C5 witness: the amended statement applied to a seven-element strictly
positive close column with the default lookahead and threshold. -/
theorem c5_create_labels_witness :
    (∀ c ∈ ([100, 101, 102, 103, 104, 105, 106] : List ℚ), 0 < c)
    ∧ (0 : ℚ) ≤ 1/1000
    ∧ (create_labels 5 (1/1000) [100, 101, 102, 103, 104, 105, 106]).length
        = ([100, 101, 102, 103, 104, 105, 106] : List ℚ).length := by
  have h1 : ∀ c ∈ ([100, 101, 102, 103, 104, 105, 106] : List ℚ), 0 < c := by decide
  have h2 : (0 : ℚ) ≤ 1/1000 := by decide
  exact ⟨h1, h2, (c5_create_labels 5 (1/1000) _ h1 h2).1⟩

/-- C7: train_model is a deterministic function of the fetched data and
prior state: the ambient entropy is consulted only through the effective
seed of a random_state argument, and both the train/test split and the
classifier are given the fixed literal seed 42, so two runs on identical
input agree exactly — including the returned trained state and the
train/test accuracy pair. -/
theorem c7_train_determinism {M : Type}
    (fitRF : List (List ℚ) → List Int → Nat → M)
    (scoreRF : M → List (List ℚ) → List Int → ℚ)
    (splitPerm : Nat → Nat → List Nat) (sq : ℚ → ℚ)
    (df? : Option (List Bar)) (s : ServiceState M) (e1 e2 : Nat) :
    train_model fitRF scoreRF splitPerm sq df? e1 s
      = train_model fitRF scoreRF splitPerm sq df? e2 s := rfl

/-- Balance bookkeeping of one simulation step: the balance net of the
recorded profits is invariant. -/
theorem simStep_balance (pred : LabRow → Int) (st : SimState) (lr : LabRow) :
    (simStep pred st lr).balance
        - (((simStep pred st lr).trades.map (fun t => t.profit)).sum)
      = st.balance - ((st.trades.map (fun t => t.profit)).sum) := by
  rw [simStep]
  cases hp : st.position with
  | none =>
    by_cases h : pred lr ≠ 0 <;> simp [h]
  | some pos =>
    by_cases h : (pos.isBuy ∧ pred lr = -1) ∨ (pos.isBuy = false ∧ pred lr = 1)
    · simp only [h, if_true, List.map_append, List.sum_append, List.map_cons,
        List.map_nil, List.sum_cons, List.sum_nil]
      ring
    · simp [h]

theorem sim_balance_aux (pred : LabRow → Int) :
    ∀ (rows : List LabRow) (st : SimState),
      (rows.foldl (simStep pred) st).balance
          - (((rows.foldl (simStep pred) st).trades.map (fun t => t.profit)).sum)
        = st.balance - ((st.trades.map (fun t => t.profit)).sum) := by
  intro rows
  induction rows with
  | nil => intro st; rfl
  | cons lr rest ih =>
    intro st
    rw [List.foldl_cons, ih (simStep pred st lr), simStep_balance]

/-- C10: the simulation loop holds at most one position (the position
slot is a single Option); a position is opened exactly when flat on a
non-HOLD prediction, with size one tenth of the balance over the price; an
open position is closed exactly on signal reversal with the long/short
profit formulas and the trade recorded with reason signal reversal; and
after any prefix of the loop the balance equals the initial 10000 plus the
sum of the recorded profits, a still-open position contributing nothing. -/
theorem c10_simulation (pred : LabRow → Int) :
    (∀ (st : SimState) (lr : LabRow), st.position = none →
        simStep pred st lr =
          (if pred lr ≠ 0 then
            { st with position := some ⟨pred lr = 1, lr.row.close, lr.idx,
                st.balance * (1 / 10) / lr.row.close⟩ }
           else st))
    ∧ (∀ (st : SimState) (lr : LabRow) (pos : Position), st.position = some pos →
        simStep pred st lr =
          (if (pos.isBuy ∧ pred lr = -1) ∨ (pos.isBuy = false ∧ pred lr = 1) then
            { balance := st.balance +
                (if pos.isBuy then (lr.row.close - pos.entry_price) * pos.size
                 else (pos.entry_price - lr.row.close) * pos.size),
              position := none,
              trades := st.trades ++
                [⟨pos.entry_time, lr.idx, pos.isBuy, pos.entry_price, lr.row.close,
                  (if pos.isBuy then (lr.row.close - pos.entry_price) * pos.size
                   else (pos.entry_price - lr.row.close) * pos.size), "Signal reversal"⟩] }
           else st))
    ∧ (∀ rows : List LabRow,
        (rows.foldl (simStep pred) simInit).balance
          = 10000 + (((rows.foldl (simStep pred) simInit).trades.map
              (fun t => t.profit)).sum)) := by
  refine ⟨?_, ?_, ?_⟩
  · intro st lr h
    rw [simStep, h]
  · intro st lr pos h
    rw [simStep, h]
  · intro rows
    have h := sim_balance_aux pred rows simInit
    have h0 : simInit.balance - ((simInit.trades.map (fun t => t.profit)).sum) = 10000 := by
      rw [simInit]
      simp
    rw [h0] at h
    linarith

/-- C10 witness: from the flat initial state, a BUY prediction at a row
with close 100 opens a long position of size 10000/10/100. -/
theorem c10_simulation_witness :
    simStep (fun _ => (1 : Int)) simInit testRow
      = { simInit with position := some ⟨true, 100, 50, 10000 * (1 / 10) / 100⟩ } := by
  have h := (c10_simulation (fun _ => (1 : Int))).1 simInit testRow rfl
  rw [h]
  decide

/-- C3 counterexample: on a fresh service, a failing training run over 100
constant bars (enough raw rows, but no clean rows survive the pipeline)
returns False yet leaves feature_columns overwritten with the full column
list, so the stored triple did not survive the failing run unchanged. -/
theorem c3_counterexample :
    (train_model unitFit zeroScore idPerm id (some (flatBars 100)) 0 (initState Unit)).1
      = (false, { model := none, scaler := ⟨none⟩, is_trained := false,
                  feature_columns := feature_columns_list })
    ∧ feature_columns_list ≠ (initState Unit).feature_columns := by
  constructor
  · decide
  · decide

/-- C3 (amended): a failing training run leaves the model, the scaler and
the trained flag unchanged, but may overwrite feature_columns with the
recomputed column list (prepare_features runs before the usable-row
check); the model and scaler are replaced, together with the column list
and the trained flag, only on a successful run. -/
theorem c3_train_failure_frame {M : Type}
    (fitRF : List (List ℚ) → List Int → Nat → M)
    (scoreRF : M → List (List ℚ) → List Int → ℚ)
    (splitPerm : Nat → Nat → List Nat) (sq : ℚ → ℚ)
    (df? : Option (List Bar)) (e : Nat) (s : ServiceState M) :
    ((train_model fitRF scoreRF splitPerm sq df? e s).1.1 = false →
      ((train_model fitRF scoreRF splitPerm sq df? e s).1.2.model = s.model
        ∧ (train_model fitRF scoreRF splitPerm sq df? e s).1.2.scaler = s.scaler
        ∧ (train_model fitRF scoreRF splitPerm sq df? e s).1.2.is_trained = s.is_trained
        ∧ ((train_model fitRF scoreRF splitPerm sq df? e s).1.2.feature_columns
              = s.feature_columns
            ∨ (train_model fitRF scoreRF splitPerm sq df? e s).1.2.feature_columns
              = feature_columns_list)))
    ∧ ((train_model fitRF scoreRF splitPerm sq df? e s).1.1 = true →
        ((train_model fitRF scoreRF splitPerm sq df? e s).1.2.model.isSome
          ∧ (train_model fitRF scoreRF splitPerm sq df? e s).1.2.scaler.params.isSome
          ∧ (train_model fitRF scoreRF splitPerm sq df? e s).1.2.is_trained = true
          ∧ (train_model fitRF scoreRF splitPerm sq df? e s).1.2.feature_columns
              = feature_columns_list)) := by
  cases df? with
  | none =>
    constructor
    · intro _
      exact ⟨rfl, rfl, rfl, Or.inl rfl⟩
    · intro h
      exact absurd h (by simp [train_model])
  | some bars =>
    by_cases h100 : bars.length < 100
    · constructor
      · intro _
        simp [train_model, if_pos h100]
      · intro h
        rw [train_model] at h
        simp only [if_pos h100] at h
        exact absurd h (by simp)
    · by_cases hclean : (cleanRows bars sq).length < 100
      · constructor
        · intro _
          simp [train_model, if_neg h100, if_pos hclean]
        · intro h
          rw [train_model] at h
          simp only [if_neg h100, if_pos hclean] at h
          exact absurd h (by simp)
      · constructor
        · intro h
          rw [train_model] at h
          simp only [if_neg h100, if_neg hclean] at h
          exact absurd h (by simp)
        · intro _
          simp [train_model, if_neg h100, if_neg hclean]

/-- C3 witness: the amended statement applied to a run on missing data,
which fails and leaves the whole initial state intact. -/
theorem c3_train_failure_frame_witness :
    (train_model unitFit zeroScore idPerm id none 0 (initState Unit)).1.1 = false
    ∧ (train_model unitFit zeroScore idPerm id none 0 (initState Unit)).1.2.model
        = (initState Unit).model
    ∧ (train_model unitFit zeroScore idPerm id none 0 (initState Unit)).1.2.scaler
        = (initState Unit).scaler := by
  have h := c3_train_failure_frame unitFit zeroScore idPerm id none 0 (initState Unit)
  have hf : (train_model unitFit zeroScore idPerm id none 0 (initState Unit)).1.1 = false := rfl
  have h2 := h.1 hf
  exact ⟨hf, h2.1, h2.2.1⟩

/-- C6 counterexample: a backtest call on a fresh service (no model
trained yet, feature_columns still empty) over 100 constant bars
overwrites the stored feature-column list, so inference/backtest calls do
mutate part of the stored trained state. -/
theorem c6_counterexample :
    ((backtest_strategy zeroPredict id (fun _ => some (flatBars 100)) 5
        (initState Unit)).2).feature_columns = feature_columns_list
    ∧ feature_columns_list ≠ (initState Unit).feature_columns := by
  constructor
  · decide
  · decide

lemma backtest_strategy_state {M : Type}
    (predictRF : M → List ℚ → Int) (sq : ℚ → ℚ)
    (fetch : Nat → Option (List Bar)) (days : Nat) (s : ServiceState M) :
    (backtest_strategy predictRF sq fetch days s).2 = s
    ∨ (backtest_strategy predictRF sq fetch days s).2
        = { s with feature_columns := feature_columns_list } := by
  rw [backtest_strategy]
  cases hf : fetch (days * 24) with
  | none => exact Or.inl rfl
  | some bars =>
    simp only
    by_cases h100 : bars.length < 100
    · rw [if_pos h100]
      exact Or.inl rfl
    · rw [if_neg h100]
      by_cases h50 : (cleanRows bars sq).length < 50
      · rw [if_pos h50]
        exact Or.inr rfl
      · rw [if_neg h50]
        by_cases hT : s.is_trained = true
        · rw [if_pos hT]
          cases hm : s.model with
          | none =>
            cases hp : s.scaler.params with
            | none =>
              simp only
              by_cases hle : (cleanRows bars sq).length ≤ 50
              · rw [if_pos hle]
                exact Or.inr rfl
              · rw [if_neg hle]
                exact Or.inr rfl
            | some ps =>
              simp only
              by_cases hle : (cleanRows bars sq).length ≤ 50
              · rw [if_pos hle]
                exact Or.inr rfl
              · rw [if_neg hle]
                exact Or.inr rfl
          | some m =>
            cases hp : s.scaler.params with
            | none =>
              simp only
              by_cases hle : (cleanRows bars sq).length ≤ 50
              · rw [if_pos hle]
                exact Or.inr rfl
              · rw [if_neg hle]
                exact Or.inr rfl
            | some ps =>
              exact Or.inr rfl
        · rw [if_neg hT]
          exact Or.inr rfl

lemma generate_signal_state_of_trained {M : Type}
    (fitRF : List (List ℚ) → List Int → Nat → M)
    (predictRF : M → List ℚ → Int) (probaRF : M → List ℚ → List ℚ)
    (scoreRF : M → List (List ℚ) → List Int → ℚ)
    (splitPerm : Nat → Nat → List Nat) (sq : ℚ → ℚ)
    (fetch : Nat → Option (List Bar)) (entropy : Nat) (s : ServiceState M)
    (hT : s.is_trained = true) :
    (generate_signal fitRF predictRF probaRF scoreRF splitPerm sq fetch entropy
        s).2 = s
    ∨ (generate_signal fitRF predictRF probaRF scoreRF splitPerm sq fetch entropy
        s).2 = { s with feature_columns := feature_columns_list } := by
  rw [generate_signal, if_pos hT]
  simp only [Bool.true_eq_false, if_false]
  cases hf : fetch 100 with
  | none => exact Or.inl rfl
  | some bars =>
    simp only
    by_cases h50 : bars.length < 50
    · rw [if_pos h50]
      exact Or.inl rfl
    · rw [if_neg h50]
      cases hlast : (prepare_features bars sq).getLast? with
      | none => exact Or.inr rfl
      | some ir =>
        cases hm : s.model with
        | none => exact Or.inr rfl
        | some m =>
          cases hp : s.scaler.params with
          | none => exact Or.inr rfl
          | some ps => exact Or.inr rfl

/-- C6 (amended): backtest_strategy never changes the model, the scaler or
the trained flag, and generate_signal on a trained service likewise; both
overwrite feature_columns with the recomputed column list whenever they
reach prepare_features, so only the model and scaler are read-only during
inference and backtest, while model and scaler mutation happens only in
train_model (including its invocation from generate_signal auto-train). -/
theorem c6_inference_frame {M : Type}
    (fitRF : List (List ℚ) → List Int → Nat → M)
    (predictRF : M → List ℚ → Int) (probaRF : M → List ℚ → List ℚ)
    (scoreRF : M → List (List ℚ) → List Int → ℚ)
    (splitPerm : Nat → Nat → List Nat) (sq : ℚ → ℚ) :
    (∀ (fetch : Nat → Option (List Bar)) (days : Nat) (s : ServiceState M),
        (backtest_strategy predictRF sq fetch days s).2.model = s.model
        ∧ (backtest_strategy predictRF sq fetch days s).2.scaler = s.scaler
        ∧ (backtest_strategy predictRF sq fetch days s).2.is_trained = s.is_trained
        ∧ ((backtest_strategy predictRF sq fetch days s).2.feature_columns
              = s.feature_columns
            ∨ (backtest_strategy predictRF sq fetch days s).2.feature_columns
              = feature_columns_list))
    ∧ (∀ (fetch : Nat → Option (List Bar)) (entropy : Nat) (s : ServiceState M),
        s.is_trained = true →
        (generate_signal fitRF predictRF probaRF scoreRF splitPerm sq fetch entropy
            s).2.model = s.model
        ∧ (generate_signal fitRF predictRF probaRF scoreRF splitPerm sq fetch entropy
            s).2.scaler = s.scaler
        ∧ (generate_signal fitRF predictRF probaRF scoreRF splitPerm sq fetch entropy
            s).2.is_trained = s.is_trained
        ∧ ((generate_signal fitRF predictRF probaRF scoreRF splitPerm sq fetch entropy
              s).2.feature_columns = s.feature_columns
            ∨ (generate_signal fitRF predictRF probaRF scoreRF splitPerm sq fetch entropy
              s).2.feature_columns = feature_columns_list)) := by
  constructor
  · intro fetch days s
    rcases backtest_strategy_state predictRF sq fetch days s with h | h
    · rw [h]
      exact ⟨rfl, rfl, rfl, Or.inl rfl⟩
    · rw [h]
      exact ⟨rfl, rfl, rfl, Or.inr rfl⟩
  · intro fetch entropy s hT
    rcases generate_signal_state_of_trained fitRF predictRF probaRF scoreRF
        splitPerm sq fetch entropy s hT with h | h
    · rw [h]
      exact ⟨rfl, rfl, rfl, Or.inl rfl⟩
    · rw [h]
      exact ⟨rfl, rfl, rfl, Or.inr rfl⟩

/-- C6 witness: the generate_signal half applied to a trained service
whose provider returns nothing, which reads but does not change the
state. -/
theorem c6_inference_frame_witness :
    trainedState.is_trained = true
    ∧ (generate_signal unitFit buyPredict buyProba zeroScore idPerm id
        (fun _ => none) 0 trainedState).2.model = trainedState.model := by
  have h := (c6_inference_frame unitFit buyPredict buyProba zeroScore idPerm
    (M := Unit) id).2 (fun _ => none) 0 trainedState rfl
  exact ⟨rfl, h.1⟩


/-- C8: backtest_strategy requests days*24 bars; given a well-formed
service state, it produces a report exactly when the fetched frame has at
least 100 raw bars and at least 50 usable rows survive feature and label
computation, and it degrades to the empty result (never an exception) when
fewer than 50 usable rows remain. -/
theorem c8_backtest_threshold {M : Type}
    (predictRF : M → List ℚ → Int) (sq : ℚ → ℚ)
    (fetch : Nat → Option (List Bar)) (days : Nat) (s : ServiceState M)
    (bars : List Bar)
    (hwf : s.is_trained = true →
        (∃ m, s.model = some m) ∧ ∃ ps, s.scaler.params = some ps)
    (hf : fetch (days * 24) = some bars) :
    (∃ r, (backtest_strategy predictRF sq fetch days s).1 = some r)
      ↔ (100 ≤ bars.length ∧ 50 ≤ (cleanRows bars sq).length) := by
  rw [backtest_strategy, hf]
  simp only
  by_cases h100 : bars.length < 100
  · rw [if_pos h100]
    constructor
    · rintro ⟨r, hr⟩
      exact absurd hr (by simp)
    · rintro ⟨hl, h2⟩
      exact absurd hl (by omega)
  · rw [if_neg h100]
    by_cases h50 : (cleanRows bars sq).length < 50
    · rw [if_pos h50]
      constructor
      · rintro ⟨r, hr⟩
        exact absurd hr (by simp)
      · rintro ⟨h1, h2⟩
        exact absurd h2 (by omega)
    · rw [if_neg h50]
      by_cases hT : s.is_trained = true
      · rw [if_pos hT]
        obtain ⟨⟨m, hm⟩, ⟨ps, hp⟩⟩ := hwf hT
        rw [hm, hp]
        exact iff_of_true ⟨_, rfl⟩ ⟨by omega, by omega⟩
      · rw [if_neg hT]
        exact iff_of_true ⟨_, rfl⟩ ⟨by omega, by omega⟩

/-- C8 witness: a 120-bar steady series on an untrained service passes
both thresholds and yields a report. -/
theorem c8_backtest_threshold_witness :
    ∃ r, (backtest_strategy zeroPredict id (fun _ => some (stdBars 120)) 5
        (initState Unit)).1 = some r :=
  (c8_backtest_threshold zeroPredict id (fun _ => some (stdBars 120)) 5
      (initState Unit) (stdBars 120) (fun h => absurd h (by decide)) rfl).mpr
    ⟨by decide, by decide⟩


/-- Any produced report is the report of some final simulation state. -/
lemma backtest_report_exists {M : Type}
    (predictRF : M → List ℚ → Int) (sq : ℚ → ℚ)
    (fetch : Nat → Option (List Bar)) (days : Nat) (s : ServiceState M)
    (r : Report)
    (hrun : (backtest_strategy predictRF sq fetch days s).1 = some r) :
    ∃ ss : SimState, r = mkReport ss := by
  rw [backtest_strategy] at hrun
  rcases hfv : fetch (days * 24) with _ | bars
  · rw [hfv] at hrun
    exact absurd hrun (by simp)
  · rw [hfv] at hrun
    simp only at hrun
    by_cases h100 : bars.length < 100
    · rw [if_pos h100] at hrun
      exact absurd hrun (by simp)
    · rw [if_neg h100] at hrun
      by_cases h50 : (cleanRows bars sq).length < 50
      · rw [if_pos h50] at hrun
        exact absurd hrun (by simp)
      · rw [if_neg h50] at hrun
        by_cases hT : s.is_trained = true
        · rw [if_pos hT] at hrun
          rcases hm : s.model with _ | m
          · rw [hm] at hrun
            rcases hp : s.scaler.params with _ | ps
            · rw [hp] at hrun
              simp only at hrun
              by_cases hle : (cleanRows bars sq).length ≤ 50
              · rw [if_pos hle] at hrun
                exact ⟨simInit, by injection hrun with h; exact h.symm⟩
              · rw [if_neg hle] at hrun
                exact absurd hrun (by simp)
            · rw [hp] at hrun
              simp only at hrun
              by_cases hle : (cleanRows bars sq).length ≤ 50
              · rw [if_pos hle] at hrun
                exact ⟨simInit, by injection hrun with h; exact h.symm⟩
              · rw [if_neg hle] at hrun
                exact absurd hrun (by simp)
          · rw [hm] at hrun
            rcases hp : s.scaler.params with _ | ps
            · rw [hp] at hrun
              simp only at hrun
              by_cases hle : (cleanRows bars sq).length ≤ 50
              · rw [if_pos hle] at hrun
                exact ⟨simInit, by injection hrun with h; exact h.symm⟩
              · rw [if_neg hle] at hrun
                exact absurd hrun (by simp)
            · rw [hp] at hrun
              refine ⟨((cleanRows bars sq).drop 50).foldl
                (simStep (fun lr => predictRF m
                  (scalerTransform ⟨some ps⟩ (featVec lr.row)))) simInit, ?_⟩
              injection hrun with h
              exact h.symm
        · rw [if_neg hT] at hrun
          exact ⟨simInit, by injection hrun with h; exact h.symm⟩

/-- C9: every report returned by backtest_strategy satisfies the report
formulas: total return percentage from final and initial balance, win rate
and average profit over the full completed-trade list (0 when no trade
closed), and a detail list holding only the most recent 10 completed
trades while the counters cover all of them. -/
theorem c9_report_formulas {M : Type}
    (predictRF : M → List ℚ → Int) (sq : ℚ → ℚ)
    (fetch : Nat → Option (List Bar)) (days : Nat) (s : ServiceState M)
    (r : Report)
    (hrun : (backtest_strategy predictRF sq fetch days s).1 = some r) :
    ∃ trades : List TradeRec,
      r.num_trades = trades.length
      ∧ r.winning_trades = (trades.filter (fun t => decide (0 < t.profit))).length
      ∧ r.initial_balance = 10000
      ∧ r.total_return_pct
          = (r.final_balance - r.initial_balance) / r.initial_balance * 100
      ∧ r.win_rate_pct = (if 0 < trades.length
          then (r.winning_trades : ℚ) / (trades.length : ℚ) * 100 else 0)
      ∧ r.average_profit_per_trade = (if 0 < trades.length
          then (trades.map (fun t => t.profit)).sum / (trades.length : ℚ) else 0)
      ∧ r.trades = trades.drop (trades.length - 10) := by
  obtain ⟨ss, hss⟩ := backtest_report_exists predictRF sq fetch days s r hrun
  subst hss
  exact ⟨ss.trades, rfl, rfl, rfl, rfl, rfl, rfl, rfl⟩

/-- C9 witness: the report of an untrained 120-bar steady backtest, whose
simulation closes no trade. -/
theorem c9_report_formulas_witness :
    ∃ trades : List TradeRec,
      (mkReport simInit).num_trades = trades.length
      ∧ (mkReport simInit).winning_trades
          = (trades.filter (fun t => decide (0 < t.profit))).length
      ∧ (mkReport simInit).initial_balance = 10000
      ∧ (mkReport simInit).total_return_pct
          = ((mkReport simInit).final_balance - (mkReport simInit).initial_balance)
            / (mkReport simInit).initial_balance * 100
      ∧ (mkReport simInit).win_rate_pct = (if 0 < trades.length
          then ((mkReport simInit).winning_trades : ℚ) / (trades.length : ℚ) * 100
          else 0)
      ∧ (mkReport simInit).average_profit_per_trade = (if 0 < trades.length
          then (trades.map (fun t => t.profit)).sum / (trades.length : ℚ) else 0)
      ∧ (mkReport simInit).trades = trades.drop (trades.length - 10) :=
  c9_report_formulas zeroPredict id (fun _ => some (stdBars 120)) 5
    (initState Unit) (mkReport simInit) (by decide)


/-- On a trained service with data available, generate_signal reduces to
signal construction from the prediction on the scaled last feature row. -/
lemma generate_signal_run {M : Type}
    (fitRF : List (List ℚ) → List Int → Nat → M)
    (predictRF : M → List ℚ → Int) (probaRF : M → List ℚ → List ℚ)
    (scoreRF : M → List (List ℚ) → List Int → ℚ)
    (splitPerm : Nat → Nat → List Nat) (sq : ℚ → ℚ)
    (fetch : Nat → Option (List Bar)) (entropy : Nat) (s : ServiceState M)
    (m : M) (ps : List (ℚ × ℚ)) (bars : List Bar) (ir : Nat × FeatRow)
    (hT : s.is_trained = true) (hm : s.model = some m)
    (hps : s.scaler.params = some ps)
    (hf : fetch 100 = some bars) (h50 : ¬ bars.length < 50)
    (hlast : (prepare_features bars sq).getLast? = some ir) :
    (generate_signal fitRF predictRF probaRF scoreRF splitPerm sq fetch entropy
        s).1
      = mkSignalData (predictRF m (scalerTransform ⟨some ps⟩ (featVec ir.2)))
          (probaRF m (scalerTransform ⟨some ps⟩ (featVec ir.2)))
          ir.2.close ir.2.atrV ir.2.rsiV ir.2.macdV := by
  rw [generate_signal, if_pos hT]
  simp only [Bool.true_eq_false, if_false]
  rw [hf]
  simp only
  rw [if_neg h50, hlast]
  simp only
  rw [hm, hps]

/-- The signal-construction branch: None exactly on HOLD, BUY and SELL
orderings under positive ATR and a probability vector of length at least
two. -/
lemma mkSignalData_spec (p : Int) (proba : List ℚ) (c a rv mv : ℚ)
    (hp3 : p = -1 ∨ p = 0 ∨ p = 1) (ha : 0 < a) (hl : 2 ≤ proba.length) :
    (mkSignalData p proba c a rv mv = none ↔ p = 0)
    ∧ ∀ sd, mkSignalData p proba c a rv mv = some sd →
        sd.entry_price = c
        ∧ (p = 1 →
            sd.stop_loss = c - 2 * a ∧ sd.take_profit = c + 3 * a
            ∧ sd.stop_loss < sd.entry_price ∧ sd.entry_price < sd.take_profit)
        ∧ (p = -1 →
            sd.stop_loss = c + 2 * a ∧ sd.take_profit = c - 3 * a
            ∧ sd.take_profit < sd.entry_price ∧ sd.entry_price < sd.stop_loss) := by
  rcases hp3 with hp | hp | hp
  · subst hp
    rw [mkSignalData, if_neg (by decide), if_pos rfl]
    obtain ⟨v, hv⟩ : ∃ v, proba[0]? = some v := by
      have hb : 0 < proba.length := by omega
      exact ⟨proba[0], List.getElem?_eq_getElem hb⟩
    rw [hv]
    constructor
    · constructor
      · intro h
        exact absurd h (by simp)
      · intro h
        exact absurd h (by decide)
    · intro sd hsd
      injection hsd with h
      subst h
      refine ⟨rfl, fun h1 => absurd h1 (by decide), fun h1 => ⟨rfl, rfl, ?_, ?_⟩⟩
      · show c - 3 * a < c
        linarith
      · show c < c + 2 * a
        linarith
  · subst hp
    rw [mkSignalData, if_neg (by decide), if_neg (by decide)]
    exact ⟨by simp, fun sd hsd => absurd hsd (by simp)⟩
  · subst hp
    rw [mkSignalData, if_pos rfl]
    obtain ⟨v, hv⟩ : ∃ v, (if 2 < proba.length then proba[2]? else proba[1]?)
        = some v := by
      by_cases h2 : 2 < proba.length
      · rw [if_pos h2]
        exact ⟨proba[2], List.getElem?_eq_getElem h2⟩
      · rw [if_neg h2]
        have hb : 1 < proba.length := by omega
        exact ⟨proba[1], List.getElem?_eq_getElem hb⟩
    rw [hv]
    constructor
    · constructor
      · intro h
        exact absurd h (by simp)
      · intro h
        exact absurd h (by decide)
    · intro sd hsd
      injection hsd with h
      subst h
      refine ⟨rfl, fun h1 => ⟨rfl, rfl, ?_, ?_⟩, fun h1 => absurd h1 (by decide)⟩
      · show c - 2 * a < c
        linarith
      · show c < c + 3 * a
        linarith

/-- A single-class model: predict_proba returns one probability. -/
def oneProba : Unit → List ℚ → List ℚ := fun _ _ => [1]

/-- C1 counterexample: a trained single-class model answers a length-1
probability vector, so on a 50-bar steady series the constant BUY
predictor makes generate_signal return None although the predicted class
is BUY, never HOLD: the confidence lookup at index 1 fails and the
handler turns the IndexError into None, refuting the None-iff-HOLD
biconditional of the original claim. -/
theorem c1_counterexample :
    (generate_signal unitFit buyPredict oneProba zeroScore idPerm id
        (fun _ => some (stdBars 50)) 0 trainedState).1 = none
    ∧ ∀ v, buyPredict () v ≠ 0 :=
  ⟨by decide, fun _ h => one_ne_zero h⟩

/-- C1 (amended): on a trained service with at least 50 fetched bars and
a last complete feature row, with positive ATR, a predicted class in
{-1, 0, 1} and a class-probability vector of length at least two (a model
that saw both a BUY and a SELL label), generate_signal returns None
exactly when the prediction is HOLD; a BUY signal has entry = latest
close, stop = entry - 2*ATR, target = entry + 3*ATR with
stop < entry < target, and a SELL signal has stop = entry + 2*ATR,
target = entry - 3*ATR with target < entry < stop.  Without the
probability-length condition the None-iff-HOLD equivalence fails, as the
counterexample shows: a single-class model yields None on a BUY
prediction. -/
theorem c1_generate_signal {M : Type}
    (fitRF : List (List ℚ) → List Int → Nat → M)
    (predictRF : M → List ℚ → Int) (probaRF : M → List ℚ → List ℚ)
    (scoreRF : M → List (List ℚ) → List Int → ℚ)
    (splitPerm : Nat → Nat → List Nat) (sq : ℚ → ℚ)
    (fetch : Nat → Option (List Bar)) (entropy : Nat) (s : ServiceState M)
    (m : M) (ps : List (ℚ × ℚ)) (bars : List Bar) (ir : Nat × FeatRow)
    (p : Int)
    (hT : s.is_trained = true) (hm : s.model = some m)
    (hps : s.scaler.params = some ps)
    (hf : fetch 100 = some bars) (h50 : ¬ bars.length < 50)
    (hlast : (prepare_features bars sq).getLast? = some ir)
    (hp : predictRF m (scalerTransform ⟨some ps⟩ (featVec ir.2)) = p)
    (hp3 : p = -1 ∨ p = 0 ∨ p = 1)
    (ha : 0 < ir.2.atrV)
    (hl : 2 ≤ (probaRF m (scalerTransform ⟨some ps⟩ (featVec ir.2))).length) :
    ((generate_signal fitRF predictRF probaRF scoreRF splitPerm sq fetch
        entropy s).1 = none ↔ p = 0)
    ∧ ∀ sd, (generate_signal fitRF predictRF probaRF scoreRF splitPerm sq fetch
        entropy s).1 = some sd →
        sd.entry_price = ir.2.close
        ∧ (p = 1 →
            sd.stop_loss = ir.2.close - 2 * ir.2.atrV
            ∧ sd.take_profit = ir.2.close + 3 * ir.2.atrV
            ∧ sd.stop_loss < sd.entry_price ∧ sd.entry_price < sd.take_profit)
        ∧ (p = -1 →
            sd.stop_loss = ir.2.close + 2 * ir.2.atrV
            ∧ sd.take_profit = ir.2.close - 3 * ir.2.atrV
            ∧ sd.take_profit < sd.entry_price
            ∧ sd.entry_price < sd.stop_loss) := by
  rw [generate_signal_run fitRF predictRF probaRF scoreRF splitPerm sq fetch
    entropy s m ps bars ir hT hm hps hf h50 hlast, hp]
  exact mkSignalData_spec p _ ir.2.close ir.2.atrV ir.2.rsiV ir.2.macdV hp3 ha hl

/-- The last prepared feature row of a 50-bar steady series. -/
def irWitness : Nat × FeatRow :=
  (49, ⟨100, 100, 100, 100, 100, 0, 100, 0, 0, 0, 50, 50, 2, 0, 1/50, 0,
    0, 0, 0, 100, 100, 100, 100, 0, 0⟩)

/-- C1 witness: the constant-predicting BUY model on a 50-bar steady
series; the prediction is 1, so a signal is produced. -/
theorem c1_generate_signal_witness :
    ((generate_signal unitFit buyPredict buyProba zeroScore idPerm id
        (fun _ => some (stdBars 50)) 0 trainedState).1 = none ↔ (1 : Int) = 0) :=
  (c1_generate_signal unitFit buyPredict buyProba zeroScore idPerm id
    (fun _ => some (stdBars 50)) 0 trainedState () (List.replicate 24 (0, 1))
    (stdBars 50) irWitness 1 rfl rfl rfl rfl (by decide) (by decide) rfl
    (Or.inr (Or.inr rfl)) (by decide) (by decide)).1


/-- C4 counterexample: a 51-bar constant series makes every stochastic
window flat, so its rows all carry an undefined stoch_k and the prepared
frame is empty instead of holding 51 - 50 + 1 = 2 rows. -/
theorem c4_counterexample :
    ¬ (prepare_features (flatBars 51) id).length
        = (if 50 ≤ (flatBars 51).length then (flatBars 51).length - 50 + 1
           else 0) := by
  decide

/-- C4 (amended): on bar data with positive closes and opens whose
14-bar high-low ranges from index 47 on are nonzero, prepare_features
returns exactly length - 50 + 1 rows (0 when fewer than 50 bars), and the
kept rows are exactly the bars of index 49 on, in order; rows of the
indicator warm-up are dropped, never filled. -/
theorem c4_prepare_features (bars : List Bar) (sq : ℚ → ℚ)
    (hpos : ∀ b ∈ bars, 0 < b.close) (hpos2 : ∀ b ∈ bars, 0 < b.open_)
    (hden : ∀ j, j < bars.length → 47 ≤ j → stochDenAt bars j ≠ 0) :
    (prepare_features bars sq).length
        = (if 50 ≤ bars.length then bars.length - 50 + 1 else 0)
    ∧ (prepare_features bars sq).map Prod.fst
        = List.range' 49 (bars.length - 49) := by
  have hlen := @prepare_features_length bars sq hpos hpos2
    (fun j h1 h2 => hden j h2 h1)
  refine ⟨?_, @prepare_features_idx bars sq hpos hpos2
    (fun j h1 h2 => hden j h2 h1)⟩
  rw [hlen]
  by_cases h : 50 ≤ bars.length
  · rw [if_pos h]
    omega
  · rw [if_neg h]
    omega

/-- C4 witness: a 52-bar steady series satisfies the preconditions and
keeps exactly the three rows 49, 50, 51. -/
theorem c4_prepare_features_witness :
    (prepare_features (stdBars 52) id).length
        = (if 50 ≤ (stdBars 52).length then (stdBars 52).length - 50 + 1
           else 0) :=
  (c4_prepare_features (stdBars 52) id (by decide) (by decide) (by decide)).1

end Claims

end AITrading
